import Mathlib

/-!
# shoekart: the product controller (`server/controllers/product.js`)

A shallow embedding of the three read endpoints of the product controller
(`getProducts`, `getProduct`, `getFeaturedProducts`) and theorems about them.

Modelling conventions.

* A JavaScript string is a `List Char`.
* `req.query` is what the query-string parser of the web framework produces: every
  value is a string, an array or a nested object (`QVal`); an absent key reads as
  `undefined`.
* Numbers (`JSNum`) are `NaN`, the two infinities, or a finite double-precision value,
  written as the exact decimal it stands for.  Every parsed literal and every arithmetic
  result is rounded to the nearest such value, ties to the even mantissa, and overflows to
  an infinity; `-0` is identified with `0`.
* Converting a query value to a string or a number throws a `TypeError` when it meets an
  object that carries a key `toString` (the query-string parser lets such keys through, and
  a string in that place is not callable).
* An exception thrown by the controller body is an `Except.error`; the wrapper
  `asyncErrorHandler` forwards it to `next`.
* The document store is a list of documents read without failure; the way the storage engine
  evaluates a filter object, orders documents and cuts a page window is a parameter
  (`Engine`).
-/

set_option autoImplicit false

namespace Shoekart

/-! ## Values -/

/-- JavaScript strings. -/
abbrev JSString := List Char

/-- Values found in `req.query`: strings, arrays and nested objects. -/
inductive QVal where
  | str (s : JSString)
  | arr (items : List QVal)
  | obj (fields : List (JSString × QVal))

/-- JavaScript numbers: `fin m places` is the finite value `m / 10 ^ places`, kept with the
least number of decimal places (see `normDec`). -/
inductive JSNum where
  | nan
  | posInf
  | negInf
  | fin (m : Int) (places : Nat)
  deriving DecidableEq, Repr

/-- Values the controller computes with: `undefined`, a number or a query value. -/
inductive JSVal where
  | undefined
  | num (n : JSNum)
  | query (v : QVal)

/-- Errors a controller can forward to `next`. -/
inductive JSError where
  | typeError (msg : JSString)
  | syntaxError (msg : JSString)
  /-- Modelled from the spec: the `errorHandler` class of `utils/errorHandler`, which is
  not among the sources: an error carrying a message and an HTTP status code. -/
  | errorHandler (message : JSString) (statusCode : Nat)
  deriving DecidableEq, Repr

deriving instance DecidableEq for Except

/-! ## Numbers -/

/-- Drop trailing zero decimals. -/
def normDec : Int → Nat → JSNum
  | m, 0 => .fin m 0
  | m, p + 1 => if m % 10 = 0 then normDec (m / 10) p else .fin m (p + 1)

/-- Magnitudes from `2 ^ 1024 - 2 ^ 970` on round to an infinity. -/
def overflowBound : Nat := (2 ^ 54 - 1) <<< 970

/-- The least `e` (up to `fuel`) with `a < den * 2 ^ (53 + e)`: how far a quotient `a / den`
of 54 bits or more has to be shifted down to fit 53 bits. -/
def upShift : Nat → Nat → Nat → Nat
  | 0, _, _ => 0
  | fuel + 1, a, den => if a < den <<< 53 then 0 else upShift fuel a (2 * den) + 1

/-- The largest `k` (up to `fuel`) with `a * 2 ^ k < b * 2 ^ 53`: how far a quotient `a / b`
below `2 ^ 53` can be shifted up and still fit 53 bits. -/
def downShift : Nat → Nat → Nat → Nat
  | 0, _, _ => 0
  | fuel + 1, a, b => if 2 * a < b <<< 53 then downShift fuel (2 * a) b + 1 else 0

/-- The quotient `num / den` rounded to the nearest integer, a tie going to the even one. -/
def roundDiv (num den : Nat) : Nat :=
  if den < 2 * (num % den) ∨ (2 * (num % den) = den ∧ (num / den) % 2 = 1) then num / den + 1
  else num / den

/-- A natural number rounded to 53 significant bits, ties to even: the integer value of the
nearest double-precision number. -/
def roundNat (n : Nat) : Nat :=
  roundDiv n (1 <<< upShift n n 1) <<< upShift n n 1

/-- The ratio `a / b` rounded to the nearest double-precision number, given as a mantissa
and a binary exponent, `mantissa * 2 ^ exponent`: 53 significant bits, ties to even, and
fewer bits below the least normal exponent `-1074`. -/
def roundRatio (a b : Nat) : Nat × Int :=
  if a = 0 then (0, 0)
  else if b <<< 53 ≤ a then (roundDiv a (b <<< upShift a a b), upShift a a b)
  else (roundDiv (a <<< downShift 1074 a b) b, -(downShift 1074 a b : Int))

/-- Integer with the given sign and magnitude. -/
def signed (neg : Bool) (n : Nat) : Int := if neg then -(n : Int) else n

/-- The number nearest to the exact value `m / 10 ^ places`: an infinity from the overflow
bound on, otherwise the value rounded to double precision. -/
def JSNum.ofDecimal (m : Int) (places : Nat) : JSNum :=
  if overflowBound * 10 ^ places ≤ m.natAbs then (if m < 0 then .negInf else .posInf)
  else
    match places with
    | 0 => .fin (signed (decide (m < 0)) (roundNat m.natAbs)) 0
    | p + 1 =>
      if 0 ≤ (roundRatio m.natAbs (10 ^ (p + 1))).2 then
        .fin (signed (decide (m < 0))
          ((roundRatio m.natAbs (10 ^ (p + 1))).1 <<<
            (roundRatio m.natAbs (10 ^ (p + 1))).2.toNat)) 0
      else
        normDec
          (signed (decide (m < 0))
            ((roundRatio m.natAbs (10 ^ (p + 1))).1 *
              5 ^ (-(roundRatio m.natAbs (10 ^ (p + 1))).2).toNat))
          (-(roundRatio m.natAbs (10 ^ (p + 1))).2).toNat

/-- The number nearest to the integer `i`. -/
def JSNum.ofInt (i : Int) : JSNum := JSNum.ofDecimal i 0

/-- `Number.isFinite`. -/
def JSNum.isFinite : JSNum → Bool
  | .fin _ _ => true
  | _ => false

/-- Whether the number is an integer. -/
def JSNum.isInteger : JSNum → Bool
  | .fin _ 0 => true
  | _ => false

/-- `a - b`, rounded. -/
def JSNum.sub : JSNum → JSNum → JSNum
  | .nan, _ => .nan
  | _, .nan => .nan
  | .posInf, .posInf => .nan
  | .negInf, .negInf => .nan
  | .posInf, _ => .posInf
  | .negInf, _ => .negInf
  | .fin _ _, .posInf => .negInf
  | .fin _ _, .negInf => .posInf
  | .fin m p, .fin n q =>
    JSNum.ofDecimal (m * (10 ^ (max p q - p) : Nat) - n * (10 ^ (max p q - q) : Nat)) (max p q)

/-- Sign of a number that is not `NaN`: `-1`, `0` or `1`. -/
def JSNum.sign : JSNum → Int
  | .nan => 0
  | .posInf => 1
  | .negInf => -1
  | .fin m _ => Int.sign m

/-- `a * b`, rounded. -/
def JSNum.mul : JSNum → JSNum → JSNum
  | .nan, _ => .nan
  | _, .nan => .nan
  | .fin m p, .fin n q => JSNum.ofDecimal (m * n) (p + q)
  | a, b =>
    if a.sign * b.sign = 0 then .nan
    else if a.sign * b.sign = 1 then .posInf
    else .negInf

/-- `a < b` on numbers; false when either is `NaN`. -/
def JSNum.lt : JSNum → JSNum → Bool
  | .nan, _ => false
  | _, .nan => false
  | _, .negInf => false
  | .negInf, _ => true
  | .posInf, _ => false
  | .fin _ _, .posInf => true
  | .fin m p, .fin n q => decide (m * (10 ^ q : Nat) < n * (10 ^ p : Nat))

/-- `Math.max(a, b)`. -/
def mathMax (a b : JSNum) : JSNum :=
  match a, b with
  | .nan, _ => .nan
  | _, .nan => .nan
  | a, b => if a.lt b then b else a

/-! ## Strings and coercions -/

/-- White space and line terminators, as trimmed by `parseInt` and `Number`. -/
def isWhiteSpace (c : Char) : Bool :=
  c.toNat ∈ [0x09, 0x0A, 0x0B, 0x0C, 0x0D, 0x20, 0xA0, 0x1680, 0x2028, 0x2029, 0x202F, 0x205F,
    0x3000, 0xFEFF] || (0x2000 ≤ c.toNat && c.toNat ≤ 0x200A)

/-- `String.prototype.trim`. -/
def trim (s : JSString) : JSString :=
  ((s.dropWhile isWhiteSpace).reverse.dropWhile isWhiteSpace).reverse

/-- Value of `c` as a digit in the given radix, if it is one. -/
def digitVal (radix : Nat) (c : Char) : Option Nat :=
  let v : Nat :=
    if '0' ≤ c ∧ c ≤ '9' then c.toNat - '0'.toNat
    else if 'a' ≤ c ∧ c ≤ 'z' then c.toNat - 'a'.toNat + 10
    else if 'A' ≤ c ∧ c ≤ 'Z' then c.toNat - 'A'.toNat + 10
    else radix
  if v < radix then some v else none

/-- The digits at the front of a string. -/
def takeDigits (radix : Nat) : JSString → List Nat
  | [] => []
  | c :: cs =>
    match digitVal radix c with
    | some d => d :: takeDigits radix cs
    | none => []

/-- What follows the digits at the front of a string. -/
def dropDigits (radix : Nat) : JSString → JSString
  | [] => []
  | c :: cs =>
    match digitVal radix c with
    | some _ => dropDigits radix cs
    | none => c :: cs

/-- Value of a digit sequence, most significant digit first. -/
def digitsValue (radix : Nat) (ds : List Nat) : Nat :=
  ds.foldl (fun acc d => acc * radix + d) 0

/-- Split off a leading sign: `(negative, rest)`. -/
def splitSign : JSString → Bool × JSString
  | '-' :: rest => (true, rest)
  | '+' :: rest => (false, rest)
  | s => (false, s)

/-- `parseInt(string)` with no radix argument: leading white space is skipped, a sign and a
`0x` prefix are honoured, the longest run of digits is read exactly and rounded to the
nearest number, and a string with no digit there gives `NaN`. -/
def parseIntStr (input : JSString) : JSNum :=
  let (neg, s) := splitSign (input.dropWhile isWhiteSpace)
  let (radix, s) :=
    match s with
    | '0' :: 'x' :: rest => (16, rest)
    | '0' :: 'X' :: rest => (16, rest)
    | _ => (10, s)
  match takeDigits radix s with
  | [] => .nan
  | ds => JSNum.ofInt (signed neg (digitsValue radix ds))

/-- A string that is entirely digits of the radix, and not empty, as a number. -/
def allDigits (radix : Nat) (s : JSString) : JSNum :=
  if s ≠ [] ∧ dropDigits radix s = [] then JSNum.ofInt (digitsValue radix (takeDigits radix s))
  else .nan

/-- The exponent part of a decimal literal: nothing, or `e`/`E`, an optional sign and at
least one digit, up to the end of the string. -/
def exponentPart : JSString → Option Int
  | [] => some 0
  | c :: rest =>
    if c = 'e' ∨ c = 'E' then
      let (neg, ds) := splitSign rest
      if ds ≠ [] ∧ dropDigits 10 ds = [] then
        some (signed neg (digitsValue 10 (takeDigits 10 ds)))
      else none
    else none

/-- An unsigned decimal literal: `Infinity`, or digits with an optional fraction and
exponent, with at least one digit before the exponent. -/
def unsignedDecimal (neg : Bool) (s : JSString) : JSNum :=
  if s = "Infinity".toList then (if neg then .negInf else .posInf)
  else
    let ip := takeDigits 10 s
    let rest := dropDigits 10 s
    let (fp, rest) :=
      match rest with
      | '.' :: r => (takeDigits 10 r, dropDigits 10 r)
      | _ => ([], rest)
    if ip = [] ∧ fp = [] then .nan
    else
      match exponentPart rest with
      | none => .nan
      | some e =>
        let m := signed neg (digitsValue 10 (ip ++ fp))
        if 0 ≤ e then JSNum.ofDecimal (m * (10 ^ e.toNat : Nat)) fp.length
        else JSNum.ofDecimal m (fp.length + (-e).toNat)

/-- The number a string converts to (`Number(string)`): the whole trimmed string has to be a
numeric literal, whose value is rounded to the nearest number (to `0` when it is too small);
the empty string is `0`, anything else is `NaN`. -/
def stringToNumber (input : JSString) : JSNum :=
  match trim input with
  | [] => .fin 0 0
  | '0' :: 'x' :: rest => allDigits 16 rest
  | '0' :: 'X' :: rest => allDigits 16 rest
  | '0' :: 'o' :: rest => allDigits 8 rest
  | '0' :: 'O' :: rest => allDigits 8 rest
  | '0' :: 'b' :: rest => allDigits 2 rest
  | '0' :: 'B' :: rest => allDigits 2 rest
  | s => unsignedDecimal (splitSign s).1 (splitSign s).2

/-- The error of converting an object that has no callable `toString` or `valueOf` giving
a primitive. -/
def notPrimitive : JSError := .typeError "Cannot convert object to primitive value".toList

mutual
/-- `String(v)` for a query value: an array joins its items with commas; an object prints as
`[object Object]` through the inherited `toString`, unless it carries a key `toString` of
its own, whose value is not callable: then the conversion throws a `TypeError`. -/
def QVal.toStr : QVal → Except JSError JSString
  | .str s => .ok s
  | .arr items => QVal.joinItems items
  | .obj fields =>
    if fields.any (fun kv => kv.1 == "toString".toList) then .error notPrimitive
    else .ok "[object Object]".toList
/-- `Array.prototype.join(",")`: the first item that cannot be converted throws. -/
def QVal.joinItems : List QVal → Except JSError JSString
  | [] => .ok []
  | [v] => v.toStr
  | v :: w :: rest =>
    match v.toStr with
    | .error e => .error e
    | .ok s =>
      match QVal.joinItems (w :: rest) with
      | .error e => .error e
      | .ok t => .ok (s ++ ',' :: t)
end

/-- Decimal digits of a natural number, padded with zeros on the left to `width`. -/
def padDigits (width n : Nat) : JSString :=
  List.replicate (width - (Nat.toDigits 10 n).length) '0' ++ Nat.toDigits 10 n

/-- `String(n)` for an integer of magnitude below `1e21`: its digits.  For a fraction this
prints the exact expansion, where the language prints the shortest decimal that reads back
as the same number, and the exponent notation of larger magnitudes is not modelled: the
controller only ever prints the literal `0`. -/
def JSNum.toStr : JSNum → JSString
  | .nan => "NaN".toList
  | .posInf => "Infinity".toList
  | .negInf => "-Infinity".toList
  | .fin m 0 => (if m < 0 then ['-'] else []) ++ Nat.toDigits 10 m.natAbs
  | .fin m (p + 1) =>
    (if m < 0 then ['-'] else []) ++ Nat.toDigits 10 (m.natAbs / 10 ^ (p + 1)) ++
      '.' :: padDigits (p + 1) (m.natAbs % 10 ^ (p + 1))

/-- `String(v)`. -/
def JSVal.toStr : JSVal → Except JSError JSString
  | .undefined => .ok "undefined".toList
  | .num n => .ok n.toStr
  | .query v => v.toStr

/-- `parseInt(v)`: the argument is converted to a string first. -/
def parseInt (v : JSVal) : Except JSError JSNum :=
  match v.toStr with
  | .error e => .error e
  | .ok s => .ok (parseIntStr s)

/-- `Number(v)`: an array or an object is converted to a string first. -/
def toNumber : JSVal → Except JSError JSNum
  | .undefined => .ok .nan
  | .num n => .ok n
  | .query v =>
    match v.toStr with
    | .error e => .error e
    | .ok s => .ok (stringToNumber s)

/-- The string a string value holds (the empty string for any other value). -/
def JSVal.asString : JSVal → JSString
  | .query (.str s) => s
  | _ => []

/-- Truthiness: `undefined`, `NaN`, `0` and the empty string are falsy; arrays and objects
are truthy even when empty. -/
def JSVal.truthy : JSVal → Bool
  | .undefined => false
  | .num .nan => false
  | .num (.fin 0 _) => false
  | .num _ => true
  | .query (.str []) => false
  | .query _ => true

/-- Property read `v[key]`, for a key that strings and arrays do not have (the controller
reads `value`, `minPrice`, `maxPrice` and the parameter names). -/
def JSVal.get (v : JSVal) (key : JSString) : JSVal :=
  match v with
  | .query (.obj fields) =>
    match fields.lookup key with
    | some w => .query w
    | none => .undefined
  | _ => .undefined

/-- The value of `a && b`. -/
def jsAnd (a b : JSVal) : JSVal := if a.truthy then b else a

/-- `Array.isArray(v)`. -/
def JSVal.isArray : JSVal → Bool
  | .query (.arr _) => true
  | _ => false

/-- The items of an array value (no items for a value that is not an array). -/
def JSVal.items : JSVal → List QVal
  | .query (.arr xs) => xs
  | _ => []

/-- `s.split(sep)` for a one-character separator: every occurrence splits. -/
def split (sep : Char) : JSString → List JSString
  | [] => [[]]
  | c :: cs =>
    if c = sep then [] :: split sep cs
    else
      match split sep cs with
      | [] => [[c]]
      | p :: ps => (c :: p) :: ps

/-- `s.toLowerCase()` on the ASCII letters.  The controller only compares the result with
`"desc"`, and no character outside ASCII lower-cases to one of those four letters. -/
def toLowerCase (s : JSString) : JSString := s.map Char.toLower

/-! ## Regular expressions -/

/-- A compiled `RegExp` object: its source text and flags. -/
structure RegExp where
  source : JSString
  flags : JSString
  deriving DecidableEq, Repr

/-- What a quantifier met at a point of a pattern would apply to: nothing, an atom, or an
atom that already carries a quantifier (only the lazy mark `?` may follow it). -/
inductive Prev where
  | nothing
  | atom
  | quantified
  deriving DecidableEq, Repr

/-- Where the scan stands inside `[...]`: right after the `[`, with no character pending, after
a plain character `a` that may begin a range, after `a-`, or past an escape (from there on
the ranges of this class are not followed). -/
inductive ClassState where
  | start
  | fresh
  | one (a : Char)
  | dash (a : Char)
  | loose
  deriving DecidableEq, Repr

/-- Where the scan of a pattern stands: among the terms of an alternative, right after a
`(`, right after a backslash (inside a class or not), inside a braced quantifier, or inside
`[...]`. -/
inductive Mode where
  | term (prev : Prev)
  | group
  | escape (inClass : Bool)
  | brace
  | cls (s : ClassState)
  deriving DecidableEq, Repr

/-- The bounds of a braced quantifier, read from the text after its `{`: `n}`, `n,}` or
`n,m}` with decimal digits; `none` when the text is not of that form (the `{` is then an
ordinary character). -/
def bracedBounds (s : JSString) : Option (Nat × Option Nat) :=
  match takeDigits 10 s, dropDigits 10 s with
  | [], _ => none
  | ds, '}' :: _ => some (digitsValue 10 ds, some (digitsValue 10 ds))
  | ds, ',' :: rest =>
    match takeDigits 10 rest, dropDigits 10 rest with
    | [], '}' :: _ => some (digitsValue 10 ds, none)
    | [], _ => none
    | es, '}' :: _ => some (digitsValue 10 ds, some (digitsValue 10 es))
    | _, _ => none
  | _, _ => none

/-- Whether the bounds `{n,m}` are in order.  The engine keeps a bound up to `2 ^ 31 - 1`
and takes a larger one for that value. -/
def boundsInOrder (n : Nat) : Option Nat → Bool
  | none => true
  | some m => decide (min n 2147483647 ≤ min m 2147483647)

/-- One character of a pattern among the terms of an alternative, `depth` groups being
open: the new depth and mode, or `none` for a syntax error (a `)` with no group open, a
quantifier with nothing to repeat, a braced quantifier with its bounds out of order). -/
def termStep (depth : Nat) (prev : Prev) (c : Char) (rest : JSString) : Option (Nat × Mode) :=
  if c = '\\' then some (depth, .escape false)
  else if c = '[' then some (depth, .cls .start)
  else if c = '(' then some (depth + 1, .group)
  else if c = ')' then (if depth = 0 then none else some (depth - 1, .term .atom))
  else if c = '|' ∨ c = '^' ∨ c = '$' then some (depth, .term .nothing)
  else if c = '*' ∨ c = '+' then
    (if prev = .atom then some (depth, .term .quantified) else none)
  else if c = '?' then
    match prev with
    | .atom => some (depth, .term .quantified)
    | .quantified => some (depth, .term .nothing)
    | .nothing => none
  else if c = '{' then
    match bracedBounds rest with
    | none => some (depth, .term .atom)
    | some (n, m) => if prev = .atom ∧ boundsInOrder n m then some (depth, .brace) else none
  else some (depth, .term .atom)

/-- One character inside `[...]`: the new mode, or `none` for a range of two plain
characters out of order.  Only characters of the basic plane are compared. -/
def classStep (st : ClassState) (c : Char) : Option Mode :=
  if c = ']' then some (.term .atom)
  else if c = '\\' then some (.escape true)
  else
    match st with
    | .start => if c = '^' then some (.cls .fresh) else some (.cls (.one c))
    | .fresh => some (.cls (.one c))
    | .one a => if c = '-' then some (.cls (.dash a)) else some (.cls (.one c))
    | .dash a =>
      if a.toNat < 65536 ∧ c.toNat < 65536 ∧ c.toNat < a.toNat then none
      else some (.cls .fresh)
    | .loose => some (.cls .loose)

/-- One character of a pattern.  After a backslash the next character is taken with it
(`\b` and `\B` are assertions, any other escape is an atom); after `(` a `?` belongs to the
group. -/
def step (depth : Nat) (mode : Mode) (c : Char) (rest : JSString) : Option (Nat × Mode) :=
  match mode with
  | .term prev => termStep depth prev c rest
  | .group => if c = '?' then some (depth, .term .nothing) else termStep depth .nothing c rest
  | .escape true => some (depth, .cls .loose)
  | .escape false => some (depth, .term (if c = 'b' ∨ c = 'B' then .nothing else .atom))
  | .brace => some (depth, if c = '}' then .term .quantified else .brace)
  | .cls st => (classStep st c).map fun m => (depth, m)

/-- Scan of a pattern for syntax errors, in the grammar of patterns without the flag `u`: a
backslash at the end, a class or a group left open, a `)` with no group open, a quantifier
with nothing to repeat, a braced quantifier with its bounds out of order, and a class range
of two plain characters out of order.  Errors that are not followed, so that such a
pattern counts as compiled here: what may stand right after `(?`, a quantifier put on a
lookbehind, group names and references to them, and a class range with an end written as an
escape. -/
def scanPattern : Nat → Mode → JSString → Bool
  | depth, .term _, [] => depth == 0
  | _, _, [] => false
  | depth, mode, c :: rest =>
    match step depth mode c rest with
    | none => false
    | some (d, m) => scanPattern d m rest

/-- `new RegExp(pattern, flags)`: a `SyntaxError` for a malformed pattern. -/
def newRegExp (pattern flags : JSString) : Except JSError RegExp :=
  if scanPattern 0 (.term .nothing) pattern then .ok ⟨pattern, flags⟩
  else .error (.syntaxError "Invalid regular expression".toList)

/-- Characters with a special meaning in a pattern. -/
def isMetaChar (c : Char) : Bool :=
  c ∈ ['\\', '^', '$', '.', '*', '+', '?', '(', ')', '[', ']', '{', '}', '|']

/-- Whether `lit` occurs in `subject` as a contiguous run. -/
def occursIn (lit : JSString) : JSString → Bool
  | [] => lit.isEmpty
  | c :: cs => lit.isPrefixOf (c :: cs) || occursIn lit cs

/-- Whether a string matches a regular expression, for the patterns made of an optional
`^`, literal text free of metacharacters and an optional `$`, with no flag or the flag `i`;
`none` for any other expression.  With the flag `i` two characters match when `canon` sends
them to the same character (`canon` is the case canonicalisation of the matcher). -/
def RegExp.test (canon : Char → Char) (r : RegExp) (subject : JSString) : Option Bool :=
  let atStart := r.source.head? == some '^'
  let body := if atStart then r.source.drop 1 else r.source
  let atEnd := body.getLast? == some '$'
  let lit := if atEnd then body.dropLast else body
  if lit.any isMetaChar || !(r.flags == [] || r.flags == ['i']) then none
  else
    let fold : JSString → JSString := if r.flags == ['i'] then List.map canon else id
    some (
      match atStart, atEnd with
      | true, true => fold subject == fold lit
      | true, false => (fold lit).isPrefixOf (fold subject)
      | false, true => (fold lit).isSuffixOf (fold subject)
      | false, false => occursIn (fold lit) (fold subject))

/-- Whether a stored string satisfies `{ $in: items }` over regular expressions: some item
matches it. -/
def inRegExpsHolds (canon : Char → Char) (items : List RegExp) (v : JSString) : Bool :=
  items.any fun r => r.test canon v == some true

/-! ## The filter object -/


/-- The value stored under one key of the filter object. -/
inductive Clause where
  /-- The clause `{ $regex: pattern, $options: options }`. -/
  | regex (pattern : JSVal) (options : JSString)
  /-- The clause `{ $gte: gte, $lte: lte }`. -/
  | range (gte lte : JSNum)
  /-- A plain boolean. -/
  | bool (b : Bool)
  /-- The clause `{ $in: items }` over query values. -/
  | inVals (items : List QVal)
  /-- The clause `{ $in: items }` over regular expressions. -/
  | inRegExps (items : List RegExp)
  /-- The clause `{ $in: items }` over numbers. -/
  | inNums (items : List JSNum)

/-- Whether a stored string satisfies a clause `{ $regex: pattern, $options: options }` whose
pattern is a string: the string matches the regular expression with that source and those
flags (`none` where `RegExp.test` is). -/
def regexClauseHolds (canon : Char → Char) (c : Clause) (v : JSString) : Option Bool :=
  match c with
  | .regex (.query (.str s)) options => RegExp.test canon ⟨s, options⟩ v
  | _ => none

/-- The filter object handed to `find` and `countDocuments`: keys with their clauses. -/
abbrev Filter := List (JSString × Clause)

/-- The assignment `query[key] = clause`. -/
def Filter.set : Filter → JSString → Clause → Filter
  | [], key, clause => [(key, clause)]
  | (k, c) :: rest, key, clause =>
    if k = key then (k, clause) :: rest else (k, c) :: Filter.set rest key clause

/-- The read `query[key]`. -/
def Filter.get (f : Filter) (key : JSString) : Option Clause := f.lookup key

/-! ## `getProducts`: building the query -/

/-- An incoming request: the parsed query string and the `slug` route parameter. -/
structure Req where
  query : JSVal
  slug : JSString

/-- The constant `page` (line 13). -/
def page (req : Req) : Except JSError JSNum :=
  if (jsAnd req.query (req.query.get "page".toList)).truthy then
    match parseInt (req.query.get "page".toList) with
    | .error e => .error e
    | .ok n => .ok (mathMax (.fin 0 0) (n.sub (.fin 1 0)))
  else .ok (.fin 0 0)

/-- The constant `limit` (line 14). -/
def limit (req : Req) : Except JSError JSNum :=
  if (jsAnd req.query (req.query.get "limit".toList)).truthy then
    parseInt (req.query.get "limit".toList)
  else .ok (.fin 12 0)

/-- The constant `search` (line 15). -/
def search (req : Req) : JSVal :=
  if (jsAnd req.query (req.query.get "search".toList)).truthy then
    req.query.get "search".toList
  else .query (.str [])

/-- The constant `sortParam` (line 16). -/
def sortParam (req : Req) : JSVal :=
  if (jsAnd (jsAnd req.query (req.query.get "sortBy".toList))
      ((req.query.get "sortBy".toList).get "value".toList)).truthy then
    (req.query.get "sortBy".toList).get "value".toList
  else .query (.str "createdAt_asc".toList)

/-- The constant `colors` (line 17). -/
def colors (req : Req) : JSVal :=
  if (jsAnd req.query (req.query.get "color".toList)).truthy then req.query.get "color".toList
  else .query (.arr [])

/-- The constant `sizes` (line 18). -/
def sizes (req : Req) : JSVal :=
  if (jsAnd req.query (req.query.get "size".toList)).truthy then req.query.get "size".toList
  else .query (.arr [])

/-- The constant `brand` (line 19). -/
def brand (req : Req) : JSVal :=
  if (jsAnd req.query (req.query.get "brand".toList)).truthy then req.query.get "brand".toList
  else .query (.arr [])

/-- The value of `priceRange.minPrice` (line 20): read from the `price` parameter when
that is truthy, else from the default `{ minPrice: 0, maxPrice: +Infinity }`. -/
def priceRangeMin (req : Req) : JSVal :=
  if (jsAnd req.query (req.query.get "price".toList)).truthy then
    (req.query.get "price".toList).get "minPrice".toList
  else .num (.fin 0 0)

/-- The value of `priceRange.maxPrice` (line 20). -/
def priceRangeMax (req : Req) : JSVal :=
  if (jsAnd req.query (req.query.get "price".toList)).truthy then
    (req.query.get "price".toList).get "maxPrice".toList
  else .num .posInf

/-- The constant `categoryOpt` (line 21). -/
def categoryOpt (req : Req) : JSVal :=
  if (jsAnd req.query (req.query.get "category".toList)).truthy then
    req.query.get "category".toList
  else .query (.str [])

/-- The `$gte` bound (line 26). -/
def priceGte (req : Req) : Except JSError JSNum :=
  match toNumber (priceRangeMin req) with
  | .error e => .error e
  | .ok n => if n.isFinite then parseInt (priceRangeMin req) else .ok (.fin 0 0)

/-- The `$lte` bound (line 27). -/
def priceLte (req : Req) : Except JSError JSNum :=
  match toNumber (priceRangeMax req) with
  | .error e => .error e
  | .ok n => if n.isFinite then parseInt (priceRangeMax req) else .ok .posInf

/-- The expression `colors.map((c) => new RegExp("^" + c + "$", "i"))` (line 37): the first
colour that cannot be converted to a string, or whose pattern does not compile, throws. -/
def colorRegExps : List QVal → Except JSError (List RegExp)
  | [] => .ok []
  | c :: rest =>
    match c.toStr with
    | .error e => .error e
    | .ok s =>
      match newRegExp ('^' :: (s ++ ['$'])) ['i'] with
      | .error e => .error e
      | .ok r =>
        match colorRegExps rest with
        | .error e => .error e
        | .ok rs => .ok (r :: rs)

/-- The expression `sizes.map(Number)` (line 41): the first size that cannot be converted
throws. -/
def sizeNumbers : List QVal → Except JSError (List JSNum)
  | [] => .ok []
  | s :: rest =>
    match toNumber (.query s) with
    | .error e => .error e
    | .ok n =>
      match sizeNumbers rest with
      | .error e => .error e
      | .ok ns => .ok (n :: ns)

/-- The object literal `query` (lines 23 to 30): the lower bound is computed before the
upper one. -/
def queryInit (req : Req) : Except JSError Filter :=
  match priceGte req with
  | .error e => .error e
  | .ok gte =>
    match priceLte req with
    | .error e => .error e
    | .ok lte =>
      .ok [ ("name".toList, .regex (search req) ['i']),
        ("price".toList, .range gte lte),
        ("isActive".toList, .bool true) ]

/-- The brand step (lines 32 to 34). -/
def withBrand (req : Req) (q : Filter) : Filter :=
  if (brand req).truthy && (brand req).isArray && decide ((brand req).items.length > 0) then
    q.set "brand".toList (.inVals ((brand req).items.map fun b => b))
  else q

/-- The colour step (lines 36 to 38). -/
def withColor (req : Req) (q : Filter) : Except JSError Filter :=
  if (colors req).truthy && (colors req).isArray && decide ((colors req).items.length > 0) then
    match colorRegExps (colors req).items with
    | .error e => .error e
    | .ok rs => .ok (q.set "color".toList (.inRegExps rs))
  else .ok q

/-- The size step (lines 40 to 42). -/
def withSize (req : Req) (q : Filter) : Except JSError Filter :=
  if (sizes req).truthy && (sizes req).isArray && decide ((sizes req).items.length > 0) then
    match sizeNumbers (sizes req).items with
    | .error e => .error e
    | .ok ns => .ok (q.set "sizeQuantity.size".toList (.inNums ns))
  else .ok q

/-- The category step (lines 44 to 46). -/
def withCategory (req : Req) (q : Filter) : Filter :=
  if (categoryOpt req).truthy then q.set "category".toList (.regex (categoryOpt req) ['i'])
  else q

/-- The filter `query` as it stands after line 46. -/
def query (req : Req) : Except JSError Filter :=
  match queryInit req with
  | .error e => .error e
  | .ok q0 =>
    match withColor req (withBrand req q0) with
    | .error e => .error e
    | .ok q1 =>
      match withSize req q1 with
      | .error e => .error e
      | .ok q2 => .ok (withCategory req q2)

/-- The destructuring `[field, order]`: the element at an index, or `undefined`. -/
def element (parts : List JSString) (i : Nat) : JSVal :=
  match parts[i]? with
  | some s => .query (.str s)
  | none => .undefined

/-- The sort field and order (lines 48 to 54).  `sortParam.split` exists only on a
string: for an array or an object the call throws a `TypeError`. -/
def sortSpec (sortParam : JSVal) : Except JSError (JSString × Int) :=
  if sortParam.truthy then
    match sortParam with
    | .query (.str s) =>
      let field := element (split '_' s) 0
      let order := element (split '_' s) 1
      let sortField := if field.truthy then field.asString else "createdAt".toList
      let sortOrder : Int :=
        if order.truthy && toLowerCase order.asString == "desc".toList then -1 else 1
      .ok (sortField, sortOrder)
    | _ => .error (.typeError "sortParam.split is not a function".toList)
  else .ok ("createdAt".toList, 1)

/-- What `getProducts` hands to the storage engine. -/
structure Plan where
  query : Filter
  sortField : JSString
  sortOrder : Int
  skip : JSNum
  limit : JSNum

/-- The query-construction part of `getProducts` (lines 13 to 60), in the order of the
source: page, limit, filter, sort, then skip as `page * limit`; or the exception thrown on the
way. -/
def plan (req : Req) : Except JSError Plan :=
  match page req with
  | .error e => .error e
  | .ok pg =>
    match limit req with
    | .error e => .error e
    | .ok lim =>
      match query req with
      | .error e => .error e
      | .ok q =>
        match sortSpec (sortParam req) with
        | .error e => .error e
        | .ok (sortField, sortOrder) => .ok ⟨q, sortField, sortOrder, pg.mul lim, lim⟩

/-! ## The store and the endpoints -/

/-- Modelled from the spec: the product document of `models/product`, which is not among
the sources; the fields are the ones the spec and the controller name. -/
structure Product where
  slug : JSString
  name : JSString
  price : JSNum
  isActive : Bool
  isFeatured : Bool
  brand : JSString
  color : JSString
  sizes : List JSNum
  category : JSString
  deriving DecidableEq, Repr

/-- Modelled from the spec: a document of `models/brands` or `models/category`, which are
not among the sources; the controller reads its `name`. -/
structure Named where
  name : JSString
  deriving DecidableEq, Repr

/-- The contents of the three collections. -/
structure Store where
  products : List Product
  brands : List Named
  categories : List Named

/-- The part of the storage engine the controller relies on without defining it. -/
structure Engine where
  /-- Whether a product satisfies a filter object. -/
  sat : Filter → Product → Bool
  /-- The chain step `.sort({ [field]: order })`. -/
  sort : JSString → Int → List Product → List Product
  /-- The chain steps `.skip(skip).limit(limit)`. -/
  window : JSNum → JSNum → List Product → List Product
  /-- The values of `distinct(field)` over the products. -/
  distinct : JSString → List Product → List JSString

/-- What a controller does with a request: it sends a JSON body with a status, or it
forwards an error to `next`. -/
inductive Outcome (β : Type) where
  | json (status : Nat) (body : β)
  | next (err : JSError)

/-- The body sent by `getProducts`. -/
structure ProductsBody where
  success : Bool
  count : Nat
  products : List Product
  colorOptions : List JSString
  brandOptions : List JSString
  categoryOptions : List JSString

/-- The endpoint `getProducts` (lines 11 to 77). -/
def getProducts (E : Engine) (db : Store) (req : Req) : Outcome ProductsBody :=
  match plan req with
  | .error e => .next e
  | .ok p =>
    let products :=
      E.window p.skip p.limit (E.sort p.sortField p.sortOrder (db.products.filter (E.sat p.query)))
    let colorOptions := E.distinct "color".toList db.products
    let brandOptions := db.brands.map fun b => b.name
    let categoryOptions := db.categories.map fun c => c.name
    let total := (db.products.filter (E.sat p.query)).length
    .json 200 ⟨true, total, products, colorOptions, brandOptions, categoryOptions⟩

/-- The body sent by `getProduct`. -/
structure ProductBody where
  success : Bool
  data : Product
  deriving DecidableEq, Repr

/-- The endpoint `getProduct` (lines 79 to 84): `findOne({ slug, isActive: true })` is the
first product with that slug and `isActive` true. -/
def getProduct (db : Store) (req : Req) : Outcome ProductBody :=
  match db.products.find? fun p => p.slug == req.slug && p.isActive == true with
  | none => .next (.errorHandler "No such product exist".toList 404)
  | some productExists => .json 200 ⟨true, productExists⟩

/-- The body sent by `getFeaturedProducts`. -/
structure FeaturedBody where
  success : Bool
  products : List Product
  deriving DecidableEq, Repr

/-- The endpoint `getFeaturedProducts` (lines 102 to 105). -/
def getFeaturedProducts (db : Store) : Outcome FeaturedBody :=
  .json 200 ⟨true, (db.products.filter fun p => p.isFeatured == true).take 12⟩

/-! ## Sample requests -/

/-- A request whose query object has the given parameters. -/
def mkReq (fields : List (String × QVal)) : Req :=
  ⟨.query (.obj (fields.map fun p => (p.1.toList, p.2))), []⟩

/-- A string value. -/
def qstr (s : String) : QVal := .str s.toList

/-- An object value. -/
def qobj (fields : List (String × QVal)) : QVal := .obj (fields.map fun p => (p.1.toList, p.2))

/-- The request `?category=boots&brand[]=acme`. -/
def reqBoots : Req := mkReq [("category", qstr "boots"), ("brand", .arr [qstr "acme"])]

/-- What `getProducts` hands to storage for `reqBoots`. -/
def planBoots : Plan :=
  { query :=
      [ ("name".toList, .regex (.query (.str [])) ['i']),
        ("price".toList, .range (.fin 0 0) .posInf),
        ("isActive".toList, .bool true),
        ("brand".toList, .inVals [qstr "acme"]),
        ("category".toList, .regex (.query (qstr "boots")) ['i']) ],
    sortField := "createdAt".toList,
    sortOrder := 1,
    skip := .fin 0 0,
    limit := .fin 12 0 }

/-- The request `?page=3&limit=12`. -/
def reqPage3 : Req := mkReq [("page", qstr "3"), ("limit", qstr "12")]

/-- What `getProducts` hands to storage for `reqPage3`. -/
def planPage3 : Plan :=
  { query :=
      [ ("name".toList, .regex (.query (.str [])) ['i']),
        ("price".toList, .range (.fin 0 0) .posInf),
        ("isActive".toList, .bool true) ],
    sortField := "createdAt".toList,
    sortOrder := 1,
    skip := .fin 24 0,
    limit := .fin 12 0 }

/-- The request `?limit=abc`, with no `page`. -/
def reqLimitAbc : Req := mkReq [("limit", qstr "abc")]

/-- The request whose `sortBy.value` is the given string. -/
def reqSort (value : String) : Req := mkReq [("sortBy", qobj [("value", qstr value)])]

/-- What `getProducts` hands to storage for a request with only `sortBy.value`, given the
sort it leads to. -/
def planSort (sortField : String) (sortOrder : Int) : Plan :=
  { planPage3 with
    sortField := sortField.toList, sortOrder := sortOrder, skip := .fin 0 0 }

/-- The request `?price[minPrice]=&price[maxPrice]=100`: the lower bound left blank. -/
def reqBlankMin : Req :=
  mkReq [("price", qobj [("minPrice", qstr ""), ("maxPrice", qstr "100")])]

/-- The request `?color[]=Red`. -/
def reqRed : Req := mkReq [("color", .arr [qstr "Red"])]

/-- What `getProducts` hands to storage for `reqRed`. -/
def planRed : Plan :=
  { planPage3 with
    query := planPage3.query ++
      [("color".toList, .inRegExps [⟨"^Red$".toList, ['i']⟩])],
    skip := .fin 0 0 }

/-- A sample product. -/
def sampleProduct (slug brand color : String) (isActive : Bool) : Product :=
  { slug := slug.toList, name := slug.toList, price := .fin 50 0, isActive := isActive,
    isFeatured := false, brand := brand.toList, color := color.toList, sizes := [.fin 9 0],
    category := "boots".toList }

/-- A sample store: two active products and a retired one. -/
def sampleStore : Store :=
  { products :=
      [ sampleProduct "trail-boot" "acme" "Red" true,
        sampleProduct "city-boot" "zenith" "Black" true,
        sampleProduct "old-boot" "acme" "Red" false ],
    brands := [⟨"acme".toList⟩, ⟨"zenith".toList⟩],
    categories := [⟨"boots".toList⟩] }

/-- A sample engine: it evaluates the `isActive` and `brand` keys of a filter, keeps the
stored order, applies no window, and lists each distinct value once. -/
def sampleEngine : Engine :=
  { sat := fun f p =>
      p.isActive &&
        match f.get "brand".toList with
        | some (.inVals items) => items.any fun v => v.toStr == .ok p.brand
        | _ => true,
    sort := fun _ _ xs => xs,
    window := fun _ _ xs => xs,
    distinct := fun _ ps =>
      (ps.map fun p => p.color).foldr (fun c acc => if c ∈ acc then acc else c :: acc) [] }

/-- The request `?brand[]=acme`. -/
def reqAcme : Req := mkReq [("brand", .arr [qstr "acme"])]

/-- The chain steps `.skip(skip).limit(limit)` over a list, for a skip that is a
non-negative integer and a limit that is a positive integer; for other values this sample
applies no window. -/
def listWindow (skip limit : JSNum) (xs : List Product) : List Product :=
  match skip, limit with
  | .fin s 0, .fin l 0 => if 0 ≤ s ∧ 0 < l then (xs.drop s.toNat).take l.toNat else xs
  | _, _ => xs

/-- The sample engine with the list window. -/
def windowEngine : Engine := { sampleEngine with window := listWindow }

/-- The request `?page=2&limit=1`. -/
def reqPage2 : Req := mkReq [("page", qstr "2"), ("limit", qstr "1")]

/-- What `getProducts` hands to storage for `reqPage2`. -/
def planPage2 : Plan := { planPage3 with skip := .fin 1 0, limit := .fin 1 0 }

/-- The request `?limit=<value>`. -/
def reqLimit (value : String) : Req := mkReq [("limit", qstr value)]

/-- The request `?page=1000...0&limit=2`, the page number being `1` followed by 308
zeros. -/
def reqHugePage : Req :=
  ⟨.query (.obj [("page".toList, .str ('1' :: List.replicate 308 '0')),
    ("limit".toList, qstr "2")]), []⟩

/-- The comparison `a === b` on numbers: equal values, and `NaN` equal to nothing. -/
def JSNum.strictEq : JSNum → JSNum → Bool
  | .nan, _ => false
  | _, .nan => false
  | .posInf, .posInf => true
  | .negInf, .negInf => true
  | .fin m p, .fin n q => decide (m * (10 ^ q : Nat) = n * (10 ^ p : Nat))
  | _, _ => false

/-- Whether a stored number satisfies `{ $in: items }` over numbers: it equals some item. -/
def inNumsHolds (items : List JSNum) (stored : JSNum) : Bool :=
  items.any fun n => n.strictEq stored

/-- The request `?size[]=abc`. -/
def reqSizeAbc : Req := mkReq [("size", .arr [qstr "abc"])]

/-- What `getProducts` hands to storage for `reqSizeAbc`. -/
def planSizeAbc : Plan :=
  { planPage3 with
    query := planPage3.query ++ [("sizeQuantity.size".toList, .inNums [.nan])],
    skip := .fin 0 0 }

/-- An integer written as a decimal string: a minus sign for a negative one, then the
digits of its magnitude. -/
def decimalString (n : Int) : JSString :=
  (if n < 0 then ['-'] else []) ++ Nat.toDigits 10 n.natAbs

/-- What `getProducts` hands to storage for a request with only `limit`, given the limit it
leads to. -/
def planLimit (limit : JSNum) : Plan := { planPage3 with skip := .fin 0 0, limit := limit }

/-- Whether a value is an array with at least one item. -/
def JSVal.isNonEmptyArray : JSVal → Bool
  | .query (.arr (_ :: _)) => true
  | _ => false

/-- The query object with one parameter removed (any other value is left as it is). -/
def JSVal.without (v : JSVal) (key : JSString) : JSVal :=
  match v with
  | .query (.obj fields) => .query (.obj (fields.filter fun kv => kv.1 != key))
  | w => w

/-- The request with one query parameter removed. -/
def Req.without (req : Req) (key : JSString) : Req := ⟨req.query.without key, req.slug⟩

/-- The request `?color=Red`: the colour given once, as a string. -/
def reqScalarColor : Req := mkReq [("color", qstr "Red")]

/-- The request `?brand[]=acme&size[]=9&size[]=9.5`. -/
def reqBrandSizes : Req :=
  mkReq [("brand", .arr [qstr "acme"]), ("size", .arr [qstr "9", qstr "9.5"])]

/-- What `getProducts` hands to storage for `reqBrandSizes`. -/
def planBrandSizes : Plan :=
  { planPage3 with
    query := planPage3.query ++
      [("brand".toList, .inVals [qstr "acme"]),
        ("sizeQuantity.size".toList, .inNums [.fin 9 0, .fin 95 1])],
    skip := .fin 0 0 }

/-- The request `?size[0][toString]=1`: one size, an object with a key `toString`. -/
def reqSizeToString : Req := mkReq [("size", .arr [qobj [("toString", qstr "1")]])]

/-- The request `?page=94906268&limit=94906267`. -/
def reqLargePage : Req := mkReq [("page", qstr "94906268"), ("limit", qstr "94906267")]

/-- What `getProducts` hands to storage for `reqLargePage`. -/
def planLargePage : Plan :=
  { planPage3 with skip := .fin 9007199515875288 0, limit := .fin 94906267 0 }

/-- The request `?page=2&limit=1&sortBy[value]=price_desc&brand[]=acme`. -/
def reqAcmePage2 : Req :=
  mkReq [("page", qstr "2"), ("limit", qstr "1"),
    ("sortBy", qobj [("value", qstr "price_desc")]), ("brand", .arr [qstr "acme"])]

/-- What `getProducts` hands to storage for `reqAcme`. -/
def planAcme : Plan :=
  { planPage3 with
    query := planPage3.query ++ [("brand".toList, .inVals [qstr "acme"])],
    skip := .fin 0 0 }

/-- The answer over `sampleStore` to a request for the brand `acme`, given the products of
its page: one stored product is active and of that brand. -/
def acmeBody (products : List Product) : ProductsBody :=
  { success := true, count := 1, products := products,
    colorOptions := ["Black".toList, "Red".toList],
    brandOptions := ["acme".toList, "zenith".toList],
    categoryOptions := ["boots".toList] }

/-! ## The words of the specification on the sort parameter -/

/-- The text before the first occurrence of `sep` (the whole text when there is none). -/
def beforeFirst (sep : Char) (s : JSString) : JSString := s.takeWhile fun c => c != sep

/-- Everything after the first occurrence of `sep` (nothing when there is none). -/
def afterFirst (sep : Char) (s : JSString) : JSString := (s.dropWhile fun c => c != sep).drop 1

/-- Whether a token equals `desc` ignoring letter case: four letters, each in either
case. -/
def equalsDescIgnoringCase : JSString → Bool
  | [a, b, c, d] =>
    (a == 'd' || a == 'D') && (b == 'e' || b == 'E') && (c == 's' || c == 'S') &&
      (d == 'c' || d == 'C')
  | _ => false

/-! ## Lemmas on the filter object -/

theorem Filter.get_set_ne (f : Filter) (key k : JSString) (c : Clause) (h : k ≠ key) :
    (f.set key c).get k = f.get k := by
  induction f with
  | nil =>
    have hk : (k == key) = false := by simpa using h
    simp [Filter.set, Filter.get, List.lookup, hk]
  | cons kv rest ih =>
    obtain ⟨k0, c0⟩ := kv
    unfold Filter.get at ih
    by_cases h0 : k0 = key
    · subst h0
      have hk : (k == k0) = false := by simpa using h
      simp [Filter.set, Filter.get, List.lookup, hk]
    · by_cases hk : k = k0
      · subst hk
        simp [Filter.set, Filter.get, List.lookup, h0]
      · have hk2 : (k == k0) = false := by simpa using hk
        simp [Filter.set, Filter.get, List.lookup, h0, hk2, ih]

theorem Filter.get_set_eq (f : Filter) (key : JSString) (c : Clause) :
    (f.set key c).get key = some c := by
  induction f with
  | nil => simp [Filter.set, Filter.get, List.lookup]
  | cons kv rest ih =>
    obtain ⟨k0, c0⟩ := kv
    unfold Filter.get at ih
    by_cases h0 : k0 = key
    · subst h0
      simp [Filter.set, Filter.get, List.lookup]
    · have hk : (key == k0) = false := by simpa using Ne.symm h0
      simp [Filter.set, Filter.get, List.lookup, h0, hk, ih]

theorem withBrand_get_ne (req : Req) (q : Filter) (k : JSString) (h : k ≠ "brand".toList) :
    (withBrand req q).get k = q.get k := by
  unfold withBrand
  split
  · exact Filter.get_set_ne _ _ _ _ h
  · rfl

theorem withSize_get_ne (req : Req) (q q2 : Filter) (k : JSString)
    (h : k ≠ "sizeQuantity.size".toList) (hq : withSize req q = .ok q2) :
    q2.get k = q.get k := by
  unfold withSize at hq
  split at hq
  · split at hq
    · cases hq
    · cases hq
      exact Filter.get_set_ne _ _ _ _ h
  · cases hq
    rfl

theorem withCategory_get_ne (req : Req) (q : Filter) (k : JSString)
    (h : k ≠ "category".toList) : (withCategory req q).get k = q.get k := by
  unfold withCategory
  split
  · exact Filter.get_set_ne _ _ _ _ h
  · rfl

theorem withColor_get_ne (req : Req) (q q1 : Filter) (k : JSString) (h : k ≠ "color".toList)
    (hq : withColor req q = .ok q1) : q1.get k = q.get k := by
  unfold withColor at hq
  split at hq
  · split at hq
    · cases hq
    · cases hq
      exact Filter.get_set_ne _ _ _ _ h
  · cases hq
    rfl

/-- The initial filter object, when its price bounds were computed. -/
theorem queryInit_ok (req : Req) (q0 : Filter) (h : queryInit req = .ok q0) :
    ∃ gte lte, priceGte req = .ok gte ∧ priceLte req = .ok lte ∧
      q0 = [ ("name".toList, .regex (search req) ['i']),
        ("price".toList, .range gte lte),
        ("isActive".toList, .bool true) ] := by
  unfold queryInit at h
  split at h
  · cases h
  · rename_i gte hg
    split at h
    · cases h
    · rename_i lte hl
      cases h
      exact ⟨gte, lte, hg, hl, rfl⟩

/-- A filter that was built is the initial object after the four optional steps. -/
theorem query_ok (req : Req) (q : Filter) (h : query req = .ok q) :
    ∃ q0 q1 q2, queryInit req = .ok q0 ∧ withColor req (withBrand req q0) = .ok q1 ∧
      withSize req q1 = .ok q2 ∧ q = withCategory req q2 := by
  unfold query at h
  split at h
  · cases h
  · rename_i q0 h0
    split at h
    · cases h
    · rename_i q1 h1
      split at h
      · cases h
      · rename_i q2 h2
        cases h
        exact ⟨q0, q1, q2, h0, h1, h2, rfl⟩

/-- A key other than the four optional ones reads the same in a built filter as in the
initial object. -/
theorem query_get_init (req : Req) (q : Filter) (k : JSString) (h : query req = .ok q)
    (hb : k ≠ "brand".toList) (hc : k ≠ "color".toList) (hs : k ≠ "sizeQuantity.size".toList)
    (hk : k ≠ "category".toList) :
    ∃ q0, queryInit req = .ok q0 ∧ q.get k = q0.get k := by
  obtain ⟨q0, q1, q2, h0, h1, h2, h3⟩ := query_ok req q h
  refine ⟨q0, h0, ?_⟩
  rw [h3, withCategory_get_ne _ _ _ hk, withSize_get_ne _ _ _ _ hs h2,
    withColor_get_ne _ _ _ _ hc h1, withBrand_get_ne _ _ _ hb]

/-- A plan that was built has the filter of `query`, the sort of `sortSpec`, the limit of
line 14 and the skip of line 59. -/
theorem plan_ok (req : Req) (p : Plan) (h : plan req = .ok p) :
    query req = .ok p.query ∧ sortSpec (sortParam req) = .ok (p.sortField, p.sortOrder) ∧
      limit req = .ok p.limit ∧ ∃ pg, page req = .ok pg ∧ p.skip = pg.mul p.limit := by
  unfold plan at h
  split at h
  · cases h
  · rename_i pg hpg
    split at h
    · cases h
    · rename_i lim hlim
      split at h
      · cases h
      · rename_i q hq
        split at h
        · cases h
        · rename_i f o hs
          cases h
          exact ⟨hq, hs, hlim, pg, hpg, rfl⟩

/-! ## Theorems -/

/-- C1: whatever the query parameters, the filter that `getProducts` hands to the storage
engine has the key `isActive` with the value `true`. -/
theorem isActive_always_true (req : Req) (p : Plan) (h : plan req = .ok p) :
    p.query.get "isActive".toList = some (.bool true) := by
  obtain ⟨hq, -, -, -⟩ := plan_ok req p h
  obtain ⟨q0, h0, hget⟩ :=
    query_get_init req p.query "isActive".toList hq (by decide) (by decide) (by decide)
      (by decide)
  obtain ⟨gte, lte, -, -, hq0⟩ := queryInit_ok req q0 h0
  rw [hget, hq0]
  rfl

theorem isActive_always_true_witness :
    plan reqBoots = .ok planBoots ∧
      planBoots.query.get "isActive".toList = some (.bool true) :=
  ⟨rfl, isActive_always_true reqBoots planBoots rfl⟩

/-- C2 (fails on the code): an array as `sortBy.value` makes `sortParam.split` throw a
`TypeError`, and the colour `(` makes `new RegExp` throw a `SyntaxError`, so the query
construction does not complete for these inputs. -/
theorem query_construction_throws :
    plan (mkReq [("sortBy", qobj [("value", .arr [qstr "price_desc"])])]) =
        .error (.typeError "sortParam.split is not a function".toList) ∧
      plan (mkReq [("color", .arr [qstr "("])]) =
        .error (.syntaxError "Invalid regular expression".toList) :=
  ⟨rfl, rfl⟩

/-! ### Reading parameters -/

theorem get_truthy (v : JSVal) (k : JSString) (h : (v.get k).truthy = true) :
    v.truthy = true := by
  cases v with
  | undefined => simp [JSVal.get, JSVal.truthy] at h
  | num n => simp [JSVal.get, JSVal.truthy] at h
  | query w =>
    cases w with
    | str s => simp [JSVal.get, JSVal.truthy] at h
    | arr xs => simp [JSVal.get, JSVal.truthy] at h
    | obj fs => rfl

/-- `req.query && req.query[k]` is truthy exactly when `req.query[k]` is. -/
theorem param_truthy (v : JSVal) (k : JSString) :
    (jsAnd v (v.get k)).truthy = (v.get k).truthy := by
  unfold jsAnd
  by_cases h : v.truthy = true
  · simp [h]
  · have h2 : (v.get k).truthy = false := by
      cases hk : (v.get k).truthy
      · rfl
      · exact absurd (get_truthy v k hk) h
    simp [h, h2]

theorem page_eq (req : Req) :
    page req =
      if (req.query.get "page".toList).truthy then
        match parseInt (req.query.get "page".toList) with
        | .error e => .error e
        | .ok n => .ok (mathMax (.fin 0 0) (n.sub (.fin 1 0)))
      else .ok (.fin 0 0) := by
  unfold page
  rw [param_truthy]

theorem limit_eq (req : Req) :
    limit req =
      if (req.query.get "limit".toList).truthy then parseInt (req.query.get "limit".toList)
      else .ok (.fin 12 0) := by
  unfold limit
  rw [param_truthy]

theorem sortParam_eq (req : Req) :
    sortParam req =
      if ((req.query.get "sortBy".toList).get "value".toList).truthy then
        (req.query.get "sortBy".toList).get "value".toList
      else .query (.str "createdAt_asc".toList) := by
  unfold sortParam
  have h : (jsAnd (jsAnd req.query (req.query.get "sortBy".toList))
      ((req.query.get "sortBy".toList).get "value".toList)).truthy =
      ((req.query.get "sortBy".toList).get "value".toList).truthy := by
    unfold jsAnd
    by_cases hq : req.query.truthy = true
    · simp only [hq, if_true]
      exact param_truthy _ _
    · have h2 : (req.query.get "sortBy".toList).truthy = false := by
        cases hk : (req.query.get "sortBy".toList).truthy
        · rfl
        · exact absurd (get_truthy _ _ hk) hq
      have h3 : ((req.query.get "sortBy".toList).get "value".toList).truthy = false := by
        cases hk : ((req.query.get "sortBy".toList).get "value".toList).truthy
        · rfl
        · rw [get_truthy _ _ hk] at h2
          cases h2
      rw [if_neg hq, if_neg hq, h3]
      exact Bool.eq_false_iff.mpr hq
  rw [h]

/-! ### Numbers -/

theorem overflowBound_pos : 0 < overflowBound := by decide

theorem safe_lt_overflowBound : 2 ^ 53 + 1 < overflowBound := by decide

theorem upShift_of_lt (fuel a den : Nat) (h : a < den <<< 53) : upShift fuel a den = 0 := by
  cases fuel with
  | zero => rfl
  | succ k => simp only [upShift, if_pos h]

theorem roundNat_safe : roundNat (2 ^ 53) = 2 ^ 53 := by decide

/-- A number of at most 53 bits is its own rounding. -/
theorem roundNat_of_le (n : Nat) (h : n ≤ 2 ^ 53) : roundNat n = n := by
  rcases Nat.lt_or_ge n (2 ^ 53) with hlt | hge
  · have h53 : (1 : Nat) <<< 53 = 2 ^ 53 := Nat.one_shiftLeft 53
    have hs : upShift n n 1 = 0 := upShift_of_lt n n 1 (by rw [h53]; exact hlt)
    unfold roundNat
    rw [hs]
    simp only [Nat.shiftLeft_zero, roundDiv, Nat.mod_one, Nat.mul_zero, Nat.div_one]
    have hf : ¬(1 < 0 ∨ (0 = 1 ∧ n % 2 = 1)) := by omega
    rw [if_neg hf]
  · have hn : n = 2 ^ 53 := Nat.le_antisymm h hge
    rw [hn]
    exact roundNat_safe

theorem signed_natAbs (i : Int) : signed (decide (i < 0)) i.natAbs = i := by
  unfold signed
  by_cases hi : i < 0
  · simp only [hi, decide_True, if_true]
    omega
  · simp only [hi, decide_False, Bool.false_eq_true, if_false]
    omega

theorem ofDecimal_zero_places (m : Int) :
    JSNum.ofDecimal m 0 =
      if overflowBound ≤ m.natAbs then (if m < 0 then .negInf else .posInf)
      else .fin (signed (decide (m < 0)) (roundNat m.natAbs)) 0 := by
  simp [JSNum.ofDecimal]

/-- An integer of magnitude at most `2 ^ 53` is a number. -/
theorem ofInt_of_le (i : Int) (h : i.natAbs ≤ 2 ^ 53) : JSNum.ofInt i = .fin i 0 := by
  have hb : ¬overflowBound ≤ i.natAbs := by
    have := safe_lt_overflowBound
    omega
  unfold JSNum.ofInt
  rw [ofDecimal_zero_places, if_neg hb, roundNat_of_le _ h, signed_natAbs]

/-- The number nearest to an integer is an infinity or an integer of the same sign. -/
theorem ofInt_cases (i : Int) :
    (JSNum.ofInt i = .posInf ∧ 0 ≤ i) ∨ (JSNum.ofInt i = .negInf ∧ i < 0) ∨
      ∃ k : Int, JSNum.ofInt i = .fin k 0 ∧ (0 ≤ i → 0 ≤ k) ∧ (i < 0 → k ≤ 0) := by
  unfold JSNum.ofInt
  rw [ofDecimal_zero_places]
  by_cases hb : overflowBound ≤ i.natAbs
  · rw [if_pos hb]
    by_cases hi : i < 0
    · rw [if_pos hi]
      exact Or.inr (Or.inl ⟨rfl, hi⟩)
    · rw [if_neg hi]
      exact Or.inl ⟨rfl, not_lt.mp hi⟩
  · rw [if_neg hb]
    refine Or.inr (Or.inr ⟨_, rfl, ?_, ?_⟩)
    · intro hi
      have : ¬i < 0 := not_lt.mpr hi
      simp only [signed, this, decide_False, Bool.false_eq_true, if_false]
      exact Int.ofNat_nonneg _
    · intro hi
      simp only [signed, hi, decide_True, if_true]
      omega

/-- The number with a non-negative integer value is that integer or `+Infinity`. -/
theorem ofInt_nonneg (k : Int) (hk : 0 ≤ k) :
    JSNum.ofInt k = .posInf ∨ ∃ k2 : Int, 0 ≤ k2 ∧ JSNum.ofInt k = .fin k2 0 := by
  rcases ofInt_cases k with ⟨h, -⟩ | ⟨-, h⟩ | ⟨k2, h, h2, -⟩
  · exact Or.inl h
  · exact absurd h (not_lt.mpr hk)
  · exact Or.inr ⟨k2, h2 hk, h⟩

theorem sub_one (n : Int) : (JSNum.fin n 0).sub (.fin 1 0) = JSNum.ofInt (n - 1) := by
  simp [JSNum.sub, JSNum.ofInt]

theorem mul_int (a l : Int) : (JSNum.fin a 0).mul (.fin l 0) = JSNum.ofInt (a * l) := rfl

/-- `Math.max(0, x)` on the number nearest to an integer. -/
theorem max_zero_ofInt (i : Int) :
    mathMax (.fin 0 0) (JSNum.ofInt i) = .posInf ∨
      ∃ k : Int, 0 ≤ k ∧ mathMax (.fin 0 0) (JSNum.ofInt i) = .fin k 0 := by
  rcases ofInt_cases i with ⟨h, -⟩ | ⟨h, -⟩ | ⟨k, h, -, -⟩
  · rw [h]
    exact Or.inl rfl
  · rw [h]
    exact Or.inr ⟨0, le_refl 0, rfl⟩
  · rw [h]
    by_cases hk : 0 < k
    · exact Or.inr ⟨k, Int.le_of_lt hk, by simp [mathMax, JSNum.lt, hk]⟩
    · exact Or.inr ⟨0, le_refl 0, by simp [mathMax, JSNum.lt, hk]⟩

/-- `Math.max(0, n - 1)` on an integer `n` of magnitude at most `2 ^ 53`. -/
theorem max_zero_pred (n : Int) (hn : n.natAbs ≤ 2 ^ 53) :
    mathMax (.fin 0 0) ((JSNum.fin n 0).sub (.fin 1 0)) = .fin (max 0 (n - 1)) 0 := by
  rw [sub_one]
  by_cases h1 : 1 ≤ n
  · have hle : (n - 1).natAbs ≤ 2 ^ 53 := by omega
    have hmax : max 0 (n - 1) = n - 1 := by omega
    rw [ofInt_of_le _ hle, hmax]
    by_cases h2 : 0 < n - 1
    · simp [mathMax, JSNum.lt, h2]
    · have h0 : n - 1 = 0 := by omega
      rw [h0]
      rfl
  · have hmax : max 0 (n - 1) = 0 := by omega
    rw [hmax]
    rcases ofInt_cases (n - 1) with ⟨-, h⟩ | ⟨h, -⟩ | ⟨k, h, -, h3⟩
    · omega
    · rw [h]
      rfl
    · have hk : ¬0 < k := by
        have := h3 (by omega)
        omega
      rw [h]
      simp [mathMax, JSNum.lt, hk]

/-- A result of `parseInt` comes from the string of its argument. -/
theorem parseInt_ok (v : JSVal) (x : JSNum) (h : parseInt v = .ok x) :
    ∃ s, v.toStr = .ok s ∧ x = parseIntStr s := by
  unfold parseInt at h
  split at h
  · cases h
  · rename_i s hs
    cases h
    exact ⟨s, hs, rfl⟩

/-- The skip of a plan whose limit is the integer `l`. -/
theorem plan_skip_cases (req : Req) (p : Plan) (l : Int) (h : plan req = .ok p)
    (hl : p.limit = .fin l 0) :
    ((req.query.get "page".toList).truthy = false → p.skip = .fin 0 0) ∧
      ∀ n : Int, (req.query.get "page".toList).truthy = true →
        parseInt (req.query.get "page".toList) = .ok (.fin n 0) →
        p.skip = (mathMax (.fin 0 0) ((JSNum.fin n 0).sub (.fin 1 0))).mul (.fin l 0) := by
  obtain ⟨-, -, -, pg, hpg, hskip⟩ := plan_ok req p h
  rw [hl] at hskip
  rw [page_eq] at hpg
  constructor
  · intro hp
    rw [hp] at hpg
    simp only [Bool.false_eq_true, if_false] at hpg
    rw [hskip, ← Except.ok.inj hpg, mul_int, Int.zero_mul]
    exact ofInt_of_le 0 (by decide)
  · intro n hp hn
    rw [hp, hn] at hpg
    simp only [if_true] at hpg
    rw [hskip, ← Except.ok.inj hpg]

/-- C3 (as stated, fails on the code): with no `page` and `limit=abc` the limit parses to
`NaN`, and the skip `0 * NaN` handed to storage is `NaN`, not `0`; and with
`page=94906268` and `limit=94906267` the skip is the double-precision product
`9007199515875288`, one less than `max(0, page - 1) * limit`. -/
theorem skip_not_the_exact_product :
    ((reqLimitAbc.query.get "page".toList).truthy = false ∧
        ∃ p, plan reqLimitAbc = .ok p ∧ p.limit = .nan ∧ p.skip = .nan ∧
          p.skip ≠ .fin 0 0) ∧
      (parseInt (reqLargePage.query.get "page".toList) = .ok (.fin 94906268 0) ∧
        (max 0 (94906268 - 1) * 94906267 : Int) = 9007199515875289 ∧
        ∃ p, plan reqLargePage = .ok p ∧ p.limit = .fin 94906267 0 ∧
          p.skip = .fin 9007199515875288 0) :=
  ⟨⟨rfl, _, rfl, rfl, rfl, by decide⟩, by decide, by decide, _, rfl, by decide, by decide⟩

/-- C3 (amended): when the effective limit is an integer `l`, the skip handed to storage is
`0` if `page` is absent or falsy; if `page` is present and parses to an integer `n` of
magnitude at most `2 ^ 53`, it is the number nearest to `max(0, n - 1) * l`, which is that
product itself whenever its magnitude is at most `2 ^ 53`. -/
theorem skip_of_page_and_limit (req : Req) (p : Plan) (l : Int) (h : plan req = .ok p)
    (hl : p.limit = .fin l 0) :
    ((req.query.get "page".toList).truthy = false → p.skip = .fin 0 0) ∧
      ∀ n : Int, (req.query.get "page".toList).truthy = true →
        parseInt (req.query.get "page".toList) = .ok (.fin n 0) → n.natAbs ≤ 2 ^ 53 →
        p.skip = JSNum.ofInt (max 0 (n - 1) * l) ∧
          ((max 0 (n - 1) * l).natAbs ≤ 2 ^ 53 → p.skip = .fin (max 0 (n - 1) * l) 0) := by
  obtain ⟨h0, hn⟩ := plan_skip_cases req p l h hl
  refine ⟨h0, ?_⟩
  intro n hp hparse hsafe
  have hs : p.skip = JSNum.ofInt (max 0 (n - 1) * l) := by
    rw [hn n hp hparse, max_zero_pred n hsafe, mul_int]
  exact ⟨hs, fun hprod => hs.trans (ofInt_of_le _ hprod)⟩

theorem skip_of_page_and_limit_witness :
    (plan reqPage3 = .ok planPage3 ∧ planPage3.limit = .fin 12 0 ∧
        planPage3.skip = .fin 24 0) ∧
      (plan (mkReq [("page", qstr "0")]) = .ok (planSort "createdAt" 1) ∧
        (planSort "createdAt" 1).skip = .fin 0 0) ∧
      (plan (mkReq []) = .ok (planSort "createdAt" 1) ∧
        (planSort "createdAt" 1).skip = .fin 0 0) ∧
      (plan reqLargePage = .ok planLargePage ∧
        planLargePage.skip = JSNum.ofInt (max 0 (94906268 - 1) * 94906267) ∧
        JSNum.ofInt (max 0 (94906268 - 1) * 94906267) = .fin 9007199515875288 0) :=
  ⟨⟨rfl, rfl,
      ((skip_of_page_and_limit reqPage3 planPage3 12 rfl rfl).2 3 rfl rfl (by decide)).2
        (by decide)⟩,
    ⟨rfl,
      ((skip_of_page_and_limit (mkReq [("page", qstr "0")]) (planSort "createdAt" 1) 12 rfl
        rfl).2 0 rfl rfl (by decide)).2 (by decide)⟩,
    ⟨rfl, (skip_of_page_and_limit (mkReq []) (planSort "createdAt" 1) 12 rfl rfl).1 rfl⟩,
    ⟨rfl,
      ((skip_of_page_and_limit reqLargePage planLargePage 94906267 rfl rfl).2 94906268
        rfl (by decide) (by decide)).1,
      by decide⟩⟩

/-! ### Splitting the sort parameter -/

theorem split_ne_nil (sep : Char) (s : JSString) : split sep s ≠ [] := by
  cases s with
  | nil => simp [split]
  | cons c cs =>
    unfold split
    split
    · simp
    · split <;> simp

theorem beforeFirst_cons_eq (sep : Char) (cs : JSString) :
    beforeFirst sep (sep :: cs) = [] := by
  simp [beforeFirst]

theorem beforeFirst_cons_ne (sep c : Char) (cs : JSString) (hc : c ≠ sep) :
    beforeFirst sep (c :: cs) = c :: beforeFirst sep cs := by
  have hb : (c != sep) = true := by simpa using hc
  simp [beforeFirst, List.takeWhile_cons, hb]

theorem afterFirst_cons_eq (sep : Char) (cs : JSString) :
    afterFirst sep (sep :: cs) = cs := by
  simp [afterFirst]

theorem afterFirst_cons_ne (sep c : Char) (cs : JSString) (hc : c ≠ sep) :
    afterFirst sep (c :: cs) = afterFirst sep cs := by
  have hb : (c != sep) = true := by simpa using hc
  simp [afterFirst, List.dropWhile_cons, hb]

/-- The first part of a split is the text before the first separator. -/
theorem split_head (sep : Char) (s : JSString) :
    (split sep s)[0]? = some (beforeFirst sep s) := by
  induction s with
  | nil => simp [split, beforeFirst]
  | cons c cs ih =>
    unfold split
    by_cases hc : c = sep
    · subst hc
      rw [if_pos rfl, beforeFirst_cons_eq]
      simp only [List.getElem?_cons_zero]
    · rw [if_neg hc, beforeFirst_cons_ne _ _ _ hc]
      cases hs : split sep cs with
      | nil => exact absurd hs (split_ne_nil sep cs)
      | cons p ps =>
        rw [hs] at ih
        simp only [List.getElem?_cons_zero, Option.some.injEq] at ih
        simp only [List.getElem?_cons_zero, ih]

/-- The second part of a split, when there is one, is the text between the first and the
second separator. -/
theorem split_second (sep : Char) (s : JSString) :
    (split sep s)[1]? =
      if sep ∈ s then some (beforeFirst sep (afterFirst sep s)) else none := by
  induction s with
  | nil => simp [split]
  | cons c cs ih =>
    unfold split
    by_cases hc : c = sep
    · subst hc
      rw [if_pos rfl, afterFirst_cons_eq, if_pos (List.mem_cons_self _ _)]
      simp only [List.getElem?_cons_succ]
      exact split_head _ _
    · rw [if_neg hc, afterFirst_cons_ne _ _ _ hc]
      have hmem : sep ∈ c :: cs ↔ sep ∈ cs := by
        simp [List.mem_cons, Ne.symm hc]
      cases hs : split sep cs with
      | nil => exact absurd hs (split_ne_nil sep cs)
      | cons p ps =>
        rw [hs] at ih
        simp only [List.getElem?_cons_succ] at ih ⊢
        rw [ih]
        simp only [hmem]

theorem afterFirst_of_not_mem (sep : Char) (s : JSString) (h : sep ∉ s) :
    afterFirst sep s = [] := by
  induction s with
  | nil => rfl
  | cons c cs ih =>
    have hc : c ≠ sep := fun e => h (by simp [e])
    have hcs : sep ∉ cs := fun e => h (List.mem_cons_of_mem _ e)
    rw [afterFirst_cons_ne _ _ _ hc, ih hcs]

theorem beforeFirst_of_not_mem (sep : Char) (s : JSString) (h : sep ∉ s) :
    beforeFirst sep s = s := by
  induction s with
  | nil => rfl
  | cons c cs ih =>
    have hc : c ≠ sep := fun e => h (by simp [e])
    have hcs : sep ∉ cs := fun e => h (List.mem_cons_of_mem _ e)
    rw [beforeFirst_cons_ne _ _ _ hc, ih hcs]

theorem beforeFirst_append (sep : Char) (f d : JSString) (h : sep ∉ f) :
    beforeFirst sep (f ++ sep :: d) = f := by
  induction f with
  | nil => exact beforeFirst_cons_eq _ _
  | cons c cs ih =>
    have hc : c ≠ sep := fun e => h (by simp [e])
    have hcs : sep ∉ cs := fun e => h (List.mem_cons_of_mem _ e)
    rw [List.cons_append, beforeFirst_cons_ne _ _ _ hc, ih hcs]

theorem afterFirst_append (sep : Char) (f d : JSString) (h : sep ∉ f) :
    afterFirst sep (f ++ sep :: d) = d := by
  induction f with
  | nil => exact afterFirst_cons_eq _ _
  | cons c cs ih =>
    have hc : c ≠ sep := fun e => h (by simp [e])
    have hcs : sep ∉ cs := fun e => h (List.mem_cons_of_mem _ e)
    rw [List.cons_append, afterFirst_cons_ne _ _ _ hc, ih hcs]

/-- The sort computed from a string `sortParam`. -/
theorem sortSpec_str (s : JSString) (hs : s ≠ []) :
    sortSpec (.query (.str s)) =
      .ok (if beforeFirst '_' s = [] then "createdAt".toList else beforeFirst '_' s,
        if toLowerCase (beforeFirst '_' (afterFirst '_' s)) = "desc".toList then -1 else 1) := by
  have htr : (JSVal.query (.str s)).truthy = true := by
    cases s with
    | nil => exact absurd rfl hs
    | cons c cs => rfl
  unfold sortSpec
  rw [if_pos htr]
  simp only [element, split_head, split_second]
  congr 2
  · cases hb : beforeFirst '_' s with
    | nil => rfl
    | cons c cs => rfl
  · by_cases hm : '_' ∈ s
    · rw [if_pos hm]
      cases hb : beforeFirst '_' (afterFirst '_' s) with
      | nil => rfl
      | cons c cs => simp [JSVal.truthy, JSVal.asString]
    · rw [if_neg hm, afterFirst_of_not_mem _ _ hm]
      rfl

/-- The sort a plan carries when `sortBy.value` is a string. -/
theorem plan_sort_of_string (req : Req) (s : JSString) (p : Plan)
    (hv : (req.query.get "sortBy".toList).get "value".toList = .query (.str s))
    (h : plan req = .ok p) :
    p.sortField = (if beforeFirst '_' s = [] then "createdAt".toList else beforeFirst '_' s) ∧
      p.sortOrder =
        if toLowerCase (beforeFirst '_' (afterFirst '_' s)) = "desc".toList then -1 else 1 := by
  obtain ⟨-, hs, -, -⟩ := plan_ok req p h
  rw [sortParam_eq, hv] at hs
  cases s with
  | nil =>
    have h2 : sortSpec (.query (.str "createdAt_asc".toList)) =
        .ok ("createdAt".toList, 1) := by decide
    simp only [JSVal.truthy, Bool.false_eq_true, if_false] at hs
    rw [h2] at hs
    obtain ⟨h3, h4⟩ := Prod.mk.inj (Except.ok.inj hs)
    exact ⟨h3.symm, h4.symm⟩
  | cons c cs =>
    simp only [JSVal.truthy, if_true] at hs
    rw [sortSpec_str _ (List.cons_ne_nil c cs)] at hs
    obtain ⟨h3, h4⟩ := Prod.mk.inj (Except.ok.inj hs)
    exact ⟨h3.symm, h4.symm⟩

/-! ### Letter case of the direction token -/

/-- Which characters lower-case to `d`, `e`, `s` and `c`. -/
theorem toLower_desc_letters (c : Char) :
    (c.toLower = 'd' ↔ c = 'd' ∨ c = 'D') ∧ (c.toLower = 'e' ↔ c = 'e' ∨ c = 'E') ∧
      (c.toLower = 's' ↔ c = 's' ∨ c = 'S') ∧ (c.toLower = 'c' ↔ c = 'c' ∨ c = 'C') := by
  by_cases h : c.toNat ≥ 65 ∧ c.toNat ≤ 90
  · obtain ⟨h1, h2⟩ := h
    have hc : c = Char.ofNat c.toNat := (Char.ofNat_toNat c).symm
    generalize c.toNat = n at h1 h2 hc
    interval_cases n <;> (subst hc; decide)
  · have hl : c.toLower = c := by
      unfold Char.toLower
      simp only [h, if_false]
    have hD : ∀ x : Char, (x.toNat ≥ 65 ∧ x.toNat ≤ 90) → c ≠ x := by
      intro x hx e
      rw [e] at h
      exact h hx
    rw [hl]
    refine ⟨?_, ?_, ?_, ?_⟩
    · exact ⟨Or.inl, fun e => e.elim id fun e2 => absurd e2 (hD _ (by decide))⟩
    · exact ⟨Or.inl, fun e => e.elim id fun e2 => absurd e2 (hD _ (by decide))⟩
    · exact ⟨Or.inl, fun e => e.elim id fun e2 => absurd e2 (hD _ (by decide))⟩
    · exact ⟨Or.inl, fun e => e.elim id fun e2 => absurd e2 (hD _ (by decide))⟩

/-- A token lower-cases to `desc` exactly when it is `desc` in some mix of letter cases. -/
theorem toLowerCase_eq_desc (t : JSString) :
    toLowerCase t = "desc".toList ↔ equalsDescIgnoringCase t = true := by
  rcases t with _ | ⟨a, _ | ⟨b, _ | ⟨c, _ | ⟨d, _ | ⟨e, rest⟩⟩⟩⟩⟩
  · simp [toLowerCase, equalsDescIgnoringCase]
  · simp [toLowerCase, equalsDescIgnoringCase]
  · simp [toLowerCase, equalsDescIgnoringCase]
  · simp [toLowerCase, equalsDescIgnoringCase]
  · simp only [toLowerCase, equalsDescIgnoringCase, List.map_cons, List.map_nil,
      String.toList, Bool.and_eq_true, Bool.or_eq_true, beq_iff_eq]
    have ha := (toLower_desc_letters a).1
    have hb := (toLower_desc_letters b).2.1
    have hc := (toLower_desc_letters c).2.2.1
    have hd := (toLower_desc_letters d).2.2.2
    constructor
    · intro h
      simp only [List.cons.injEq, and_true] at h
      exact ⟨⟨⟨ha.mp h.1, hb.mp h.2.1⟩, hc.mp h.2.2.1⟩, hd.mp h.2.2.2⟩
    · rintro ⟨⟨⟨h1, h2⟩, h3⟩, h4⟩
      rw [ha.mpr h1, hb.mpr h2, hc.mpr h3, hd.mpr h4]
  · simp [toLowerCase, equalsDescIgnoringCase]

/-- The order of a plan in terms of the letters of the direction token. -/
theorem order_iff_desc (o : Int) (t : JSString)
    (ho : o = if toLowerCase t = "desc".toList then -1 else 1) :
    (o = -1 ↔ equalsDescIgnoringCase t = true) ∧
      (o = 1 ↔ equalsDescIgnoringCase t = false) := by
  rw [ho]
  by_cases hd : toLowerCase t = "desc".toList
  · have ht : equalsDescIgnoringCase t = true := (toLowerCase_eq_desc t).mp hd
    rw [if_pos hd, ht]
    exact ⟨⟨fun _ => rfl, fun _ => rfl⟩, ⟨fun h => absurd h (by decide), fun h => by cases h⟩⟩
  · have hf : equalsDescIgnoringCase t = false := by
      cases he : equalsDescIgnoringCase t
      · rfl
      · exact absurd ((toLowerCase_eq_desc t).mpr he) hd
    rw [if_neg hd, hf]
    exact ⟨⟨fun h => absurd h (by decide), fun h => by cases h⟩, ⟨fun _ => rfl, fun _ => rfl⟩⟩

/-- C4 (as stated, fails on the code): for `price_desc_x` everything after the first
underscore is `desc_x`, which is not `desc`, yet the code sorts descending by `price`; and
for `_desc` the text before the first underscore is empty, yet the sort field is
`createdAt`. -/
theorem sort_direction_not_rest_of_string :
    (equalsDescIgnoringCase (afterFirst '_' "price_desc_x".toList) = false ∧
        ∃ p, plan (reqSort "price_desc_x") = .ok p ∧ p.sortField = "price".toList ∧
          p.sortOrder = -1) ∧
      (beforeFirst '_' "_desc".toList = [] ∧
        ∃ p, plan (reqSort "_desc") = .ok p ∧ p.sortField = "createdAt".toList) :=
  ⟨⟨by decide, _, rfl, rfl, rfl⟩, rfl, _, rfl, rfl⟩

/-- C4 (amended): for every `sortBy.value` string, the sort field is the text before the
first underscore, or `createdAt` when that text is empty; the direction token is the text
between the first and the second underscore (up to the end when there is no second one), and
the order is descending exactly when that token is `desc` in any mix of upper and lower
case, ascending otherwise. -/
theorem sort_from_first_two_parts (req : Req) (s : JSString) (p : Plan)
    (hv : (req.query.get "sortBy".toList).get "value".toList = .query (.str s))
    (h : plan req = .ok p) :
    p.sortField = (if beforeFirst '_' s = [] then "createdAt".toList else beforeFirst '_' s) ∧
      (p.sortOrder = -1 ↔
        equalsDescIgnoringCase (beforeFirst '_' (afterFirst '_' s)) = true) ∧
      (p.sortOrder = 1 ↔
        equalsDescIgnoringCase (beforeFirst '_' (afterFirst '_' s)) = false) := by
  obtain ⟨hf, ho⟩ := plan_sort_of_string req s p hv h
  exact ⟨hf, order_iff_desc _ _ ho⟩

theorem sort_from_first_two_parts_witness :
    (((reqSort "price_DeSc_x").query.get "sortBy".toList).get "value".toList =
        .query (qstr "price_DeSc_x") ∧
      plan (reqSort "price_DeSc_x") = .ok (planSort "price" (-1)) ∧
      (planSort "price" (-1)).sortField = "price".toList ∧
      (planSort "price" (-1)).sortOrder = -1) ∧
    (plan (reqSort "price_descx") = .ok (planSort "price" 1) ∧
      (planSort "price" 1).sortOrder = 1) :=
  ⟨⟨rfl, rfl,
    (sort_from_first_two_parts (reqSort "price_DeSc_x") "price_DeSc_x".toList
      (planSort "price" (-1)) rfl rfl).1.trans (by decide),
    (sort_from_first_two_parts (reqSort "price_DeSc_x") "price_DeSc_x".toList
      (planSort "price" (-1)) rfl rfl).2.1.mpr (by decide)⟩,
    rfl,
    (sort_from_first_two_parts (reqSort "price_descx") "price_descx".toList
      (planSort "price" 1) rfl rfl).2.2.mpr (by decide)⟩

/-- C5: an absent `sortBy.value` sorts by `createdAt` ascending; a value `f_d` with `f`
non-empty and no underscore in `f` or `d` sorts by `f`, descending exactly when `d` is `desc`
in any mix of upper and lower case; a non-empty value with no underscore sorts by itself,
ascending. -/
theorem sort_default_pair_and_bare (req : Req) (p : Plan) (h : plan req = .ok p) :
    ((req.query.get "sortBy".toList).get "value".toList = .undefined →
        p.sortField = "createdAt".toList ∧ p.sortOrder = 1) ∧
      (∀ f d : JSString, f ≠ [] → '_' ∉ f → '_' ∉ d →
        (req.query.get "sortBy".toList).get "value".toList = .query (.str (f ++ '_' :: d)) →
        p.sortField = f ∧ (p.sortOrder = -1 ↔ equalsDescIgnoringCase d = true) ∧
          (p.sortOrder = 1 ↔ equalsDescIgnoringCase d = false)) ∧
      (∀ s : JSString, s ≠ [] → '_' ∉ s →
        (req.query.get "sortBy".toList).get "value".toList = .query (.str s) →
        p.sortField = s ∧ p.sortOrder = 1) := by
  refine ⟨?_, ?_, ?_⟩
  · intro hv
    obtain ⟨-, hs, -, -⟩ := plan_ok req p h
    rw [sortParam_eq, hv] at hs
    have h2 : sortSpec (.query (.str "createdAt_asc".toList)) =
        .ok ("createdAt".toList, 1) := by decide
    simp only [JSVal.truthy, Bool.false_eq_true, if_false] at hs
    rw [h2] at hs
    obtain ⟨h3, h4⟩ := Prod.mk.inj (Except.ok.inj hs)
    exact ⟨h3.symm, h4.symm⟩
  · intro f d hf hnf hnd hv
    obtain ⟨h1, h2⟩ := plan_sort_of_string req _ p hv h
    rw [beforeFirst_append _ _ _ hnf] at h1
    rw [afterFirst_append _ _ _ hnf, beforeFirst_of_not_mem _ _ hnd] at h2
    rw [if_neg hf] at h1
    exact ⟨h1, order_iff_desc _ _ h2⟩
  · intro s hs hns hv
    obtain ⟨h1, h2⟩ := plan_sort_of_string req _ p hv h
    rw [beforeFirst_of_not_mem _ _ hns, if_neg hs] at h1
    rw [afterFirst_of_not_mem _ _ hns] at h2
    exact ⟨h1, h2.trans (by decide)⟩

theorem sort_default_pair_and_bare_witness :
    (plan (reqSort "price_desc") = .ok (planSort "price" (-1)) ∧
        (planSort "price" (-1)).sortField = "price".toList ∧
        (planSort "price" (-1)).sortOrder = -1) ∧
      (plan (reqSort "price_DESC") = .ok (planSort "price" (-1)) ∧
        (planSort "price" (-1)).sortOrder = -1) ∧
      (plan (reqSort "price_asc") = .ok (planSort "price" 1) ∧
        (planSort "price" 1).sortOrder = 1) ∧
      (plan (mkReq []) = .ok (planSort "createdAt" 1) ∧
        (planSort "createdAt" 1).sortField = "createdAt".toList ∧
        (planSort "createdAt" 1).sortOrder = 1) ∧
      (plan (reqSort "rating") = .ok (planSort "rating" 1) ∧
        (planSort "rating" 1).sortField = "rating".toList ∧
        (planSort "rating" 1).sortOrder = 1) :=
  ⟨⟨rfl,
      ((sort_default_pair_and_bare (reqSort "price_desc") (planSort "price" (-1)) rfl).2.1
        "price".toList "desc".toList (by decide) (by decide) (by decide) rfl).1,
      ((sort_default_pair_and_bare (reqSort "price_desc") (planSort "price" (-1)) rfl).2.1
        "price".toList "desc".toList (by decide) (by decide) (by decide) rfl).2.1.mpr
        (by decide)⟩,
    ⟨rfl,
      ((sort_default_pair_and_bare (reqSort "price_DESC") (planSort "price" (-1)) rfl).2.1
        "price".toList "DESC".toList (by decide) (by decide) (by decide) rfl).2.1.mpr
        (by decide)⟩,
    ⟨rfl,
      ((sort_default_pair_and_bare (reqSort "price_asc") (planSort "price" 1) rfl).2.1
        "price".toList "asc".toList (by decide) (by decide) (by decide) rfl).2.2.mpr
        (by decide)⟩,
    ⟨rfl, (sort_default_pair_and_bare (mkReq []) (planSort "createdAt" 1) rfl).1 rfl⟩,
    ⟨rfl,
      (sort_default_pair_and_bare (reqSort "rating") (planSort "rating" 1) rfl).2.2
        "rating".toList (by decide) (by decide) rfl⟩⟩

/-- C6 (fails on the code): with `minPrice` blank, `Number("")` is the finite number `0`, so
the guard lets `parseInt("")` through and the lower bound of the price clause is `NaN`. -/
theorem price_lower_bound_nan :
    toNumber (priceRangeMin reqBlankMin) = .ok (.fin 0 0) ∧
      priceGte reqBlankMin = .ok .nan ∧
      ∃ p, plan reqBlankMin = .ok p ∧
        p.query.get "price".toList = some (.range .nan (.fin 100 0)) :=
  ⟨by decide, by decide, _, rfl, rfl⟩

/-! ### The category clause -/

theorem get_cases (v : JSVal) (k : JSString) :
    v.get k = .undefined ∨ ∃ w, v.get k = .query w := by
  unfold JSVal.get
  split
  · split
    · exact Or.inr ⟨_, rfl⟩
    · exact Or.inl rfl
  · exact Or.inl rfl

/-- A parameter is falsy exactly when it is absent or the empty string. -/
theorem get_falsy_iff (v : JSVal) (k : JSString) :
    (v.get k).truthy = false ↔ v.get k = .undefined ∨ v.get k = .query (.str []) := by
  rcases get_cases v k with h | ⟨w, h⟩
  · rw [h]
    simp [JSVal.truthy]
  · rw [h]
    cases w with
    | str s =>
      cases s with
      | nil => simp [JSVal.truthy]
      | cons c cs => simp [JSVal.truthy]
    | arr xs => simp [JSVal.truthy]
    | obj fs => simp [JSVal.truthy]

theorem categoryOpt_eq (req : Req) :
    categoryOpt req =
      if (req.query.get "category".toList).truthy then req.query.get "category".toList
      else .query (.str []) := by
  unfold categoryOpt
  rw [param_truthy]

/-- The category key of a filter that was built. -/
theorem query_get_category (req : Req) (q : Filter) (h : query req = .ok q) :
    q.get "category".toList =
      if (req.query.get "category".toList).truthy then
        some (.regex (req.query.get "category".toList) ['i'])
      else none := by
  obtain ⟨q0, q1, q2, h0, h1, h2, h3⟩ := query_ok req q h
  obtain ⟨gte, lte, -, -, hq0⟩ := queryInit_ok req q0 h0
  have hnone : q2.get "category".toList = none := by
    rw [withSize_get_ne _ _ _ _ (by decide) h2, withColor_get_ne _ _ _ _ (by decide) h1,
      withBrand_get_ne _ _ _ (by decide), hq0]
    rfl
  rw [h3]
  by_cases ht : (req.query.get "category".toList).truthy = true
  · have hc : categoryOpt req = req.query.get "category".toList := by
      rw [categoryOpt_eq, if_pos ht]
    unfold withCategory
    rw [hc, if_pos ht, if_pos ht]
    exact Filter.get_set_eq _ _ _
  · have hc : categoryOpt req = .query (.str []) := by
      rw [categoryOpt_eq, if_neg ht]
    have hfalse : ¬(JSVal.query (.str [])).truthy = true := by decide
    unfold withCategory
    rw [hc, if_neg hfalse, if_neg ht]
    exact hnone

/-- A pattern of literal text with the flag `i` matches the strings that contain it, up to
the case canonicalisation. -/
theorem test_literal (canon : Char → Char) (s v : JSString)
    (hs : ∀ c ∈ s, isMetaChar c = false) :
    RegExp.test canon ⟨s, ['i']⟩ v = some (occursIn (s.map canon) (v.map canon)) := by
  have hany : s.any isMetaChar = false := by
    rw [List.any_eq_false]
    intro c hc
    simp [hs c hc]
  have hhead : (s.head? == some '^') = false := by
    cases s with
    | nil => rfl
    | cons c cs =>
      have hc : c ≠ '^' := by
        intro e
        have := hs c (List.mem_cons_self _ _)
        rw [e] at this
        exact absurd this (by decide)
      simpa using hc
  have hlast : (s.getLast? == some '$') = false := by
    cases hl : s.getLast? with
    | none => rfl
    | some c =>
      have hmem : c ∈ s := List.mem_of_getLast?_eq_some hl
      have hc : c ≠ '$' := by
        intro e
        have := hs c hmem
        rw [e] at this
        exact absurd this (by decide)
      simpa using hc
  simp [RegExp.test, hhead, hlast, hany]

/-- C7: the filter has a category key exactly when the `category` parameter is present and
not the empty string; the clause is then `{ $regex: category, $options: "i" }` on the given
value, which for a string of literal text holds of the stored strings that contain it,
ignoring case; when the parameter is absent or empty the filter has no category key. -/
theorem category_clause_iff (req : Req) (p : Plan) (h : plan req = .ok p) :
    (p.query.get "category".toList = none ↔
        req.query.get "category".toList = .undefined ∨
          req.query.get "category".toList = .query (.str [])) ∧
      ((req.query.get "category".toList).truthy = true →
        p.query.get "category".toList = some (.regex (req.query.get "category".toList) ['i'])) ∧
      ∀ s : JSString, req.query.get "category".toList = .query (.str s) → s ≠ [] →
        ∃ clause, p.query.get "category".toList = some clause ∧
          ∀ canon v, (∀ c ∈ s, isMetaChar c = false) →
            regexClauseHolds canon clause v = some (occursIn (s.map canon) (v.map canon)) := by
  obtain ⟨hq, -, -, -⟩ := plan_ok req p h
  have hget := query_get_category req p.query hq
  refine ⟨?_, ?_, ?_⟩
  · rw [hget, ← get_falsy_iff]
    cases (req.query.get "category".toList).truthy <;> simp
  · intro ht
    rw [hget, if_pos ht]
  · intro s hs hne
    have ht : (req.query.get "category".toList).truthy = true := by
      rw [hs]
      cases s with
      | nil => exact absurd rfl hne
      | cons c cs => rfl
    refine ⟨_, by rw [hget, if_pos ht], ?_⟩
    intro canon v hmeta
    rw [hs]
    exact test_literal canon s v hmeta

theorem category_clause_iff_witness :
    plan reqBoots = .ok planBoots ∧
      planBoots.query.get "category".toList =
        some (.regex (.query (qstr "boots")) ['i']) ∧
      regexClauseHolds Char.toUpper (.regex (.query (qstr "boots")) ['i'])
        "Hiking Boots".toList = some true ∧
      (plan (mkReq [("category", qstr "")]) = .ok (planSort "createdAt" 1) ∧
        (planSort "createdAt" 1).query.get "category".toList = none) :=
  ⟨rfl, (category_clause_iff reqBoots planBoots rfl).2.1 rfl, by decide, rfl,
    (category_clause_iff (mkReq [("category", qstr "")]) (planSort "createdAt" 1) rfl).1.mpr
      (Or.inr rfl)⟩

/-! ### The colour clause -/

/-- The pattern built for one colour (line 37). -/
theorem colorRegExps_cons (c : QVal) (s : JSString) (rest : List QVal) (r : RegExp)
    (rs : List RegExp) (h0 : c.toStr = .ok s)
    (h1 : newRegExp ('^' :: (s ++ ['$'])) ['i'] = .ok r)
    (h2 : colorRegExps rest = .ok rs) : colorRegExps (c :: rest) = .ok (r :: rs) := by
  rw [colorRegExps, h0]
  simp only [h1, h2]

theorem toStr_str (s : JSString) : (QVal.str s).toStr = .ok s := by
  rw [QVal.toStr]

/-- A character without special meaning is an atom, whatever precedes it. -/
theorem termStep_literal (depth : Nat) (prev : Prev) (c : Char) (rest : JSString)
    (hc : isMetaChar c = false) : termStep depth prev c rest = some (depth, .term .atom) := by
  have h : ∀ d : Char, isMetaChar d = true → c ≠ d := by
    intro d hd e
    rw [e, hd] at hc
    cases hc
  have h1 := h '\\' (by decide)
  have h2 := h '[' (by decide)
  have h3 := h '(' (by decide)
  have h4 := h ')' (by decide)
  have h5 := h '|' (by decide)
  have h6 := h '^' (by decide)
  have h7 := h '$' (by decide)
  have h8 := h '*' (by decide)
  have h9 := h '+' (by decide)
  have h10 := h '?' (by decide)
  have h11 := h '{' (by decide)
  unfold termStep
  rw [if_neg h1, if_neg h2, if_neg h3, if_neg h4, if_neg (by simp [h5, h6, h7]),
    if_neg (by simp [h8, h9]), if_neg h10, if_neg h11]

/-- Literal text followed by `$`, with no group open, scans without error. -/
theorem scanPattern_literal (s : JSString) (hs : ∀ c ∈ s, isMetaChar c = false) :
    ∀ prev, scanPattern 0 (.term prev) (s ++ ['$']) = true := by
  induction s with
  | nil =>
    intro prev
    cases prev <;> decide
  | cons c cs ih =>
    intro prev
    have hc := hs c (List.mem_cons_self _ _)
    have ih2 := ih (fun d hd => hs d (List.mem_cons_of_mem _ hd)) .atom
    rw [List.cons_append, scanPattern, step, termStep_literal 0 prev c _ hc]
    exact ih2

theorem newRegExp_literal (s : JSString) (hs : ∀ c ∈ s, isMetaChar c = false) :
    newRegExp ('^' :: (s ++ ['$'])) ['i'] = .ok ⟨'^' :: (s ++ ['$']), ['i']⟩ := by
  have h : scanPattern 0 (.term .nothing) ('^' :: (s ++ ['$'])) = true := by
    have e : step 0 (.term .nothing) '^' (s ++ ['$']) = some (0, .term .nothing) := by
      simp [step, termStep]
    rw [scanPattern, e]
    exact scanPattern_literal s hs .nothing
  simp [newRegExp, h]

theorem colorRegExps_literal (cs : List JSString)
    (hs : ∀ c ∈ cs, ∀ ch ∈ c, isMetaChar ch = false) :
    colorRegExps (cs.map QVal.str) =
      .ok (cs.map fun c => ⟨'^' :: (c ++ ['$']), ['i']⟩) := by
  induction cs with
  | nil => rfl
  | cons c rest ih =>
    exact colorRegExps_cons _ c _ _ _ (toStr_str c)
      (newRegExp_literal c (hs c (List.mem_cons_self _ _)))
      (ih fun d hd => hs d (List.mem_cons_of_mem _ hd))

/-- A pattern `^text$` of literal text with the flag `i` matches exactly the strings equal
to the text up to the case canonicalisation. -/
theorem test_anchored (canon : Char → Char) (s v : JSString)
    (hs : ∀ c ∈ s, isMetaChar c = false) :
    RegExp.test canon ⟨'^' :: (s ++ ['$']), ['i']⟩ v = some (v.map canon == s.map canon) := by
  have hany : s.any isMetaChar = false := by
    rw [List.any_eq_false]
    intro c hc
    simp [hs c hc]
  simp [RegExp.test, hany]

theorem colors_eq (req : Req) :
    colors req =
      if (req.query.get "color".toList).truthy then req.query.get "color".toList
      else .query (.arr []) := by
  unfold colors
  rw [param_truthy]

/-- C8: for a non-empty array of colour strings free of regex metacharacters, the colour
step never throws and sets the colour clause to `{ $in: [...] }` with one pattern `^c$`,
flag `i`, per requested colour `c`; every filter and plan that is built carries that clause;
a stored colour satisfies it exactly when it equals some requested colour up to the case
canonicalisation. -/
theorem color_clause_exact_match (req : Req) (cs : List JSString)
    (hcol : req.query.get "color".toList = .query (.arr (cs.map QVal.str)))
    (hne : cs ≠ []) (hmeta : ∀ c ∈ cs, ∀ ch ∈ c, isMetaChar ch = false) :
    (∀ q0, withColor req q0 =
        .ok (q0.set "color".toList
          (.inRegExps (cs.map fun c => ⟨'^' :: (c ++ ['$']), ['i']⟩)))) ∧
      (∀ q, query req = .ok q →
        q.get "color".toList =
          some (.inRegExps (cs.map fun c => ⟨'^' :: (c ++ ['$']), ['i']⟩))) ∧
      (∀ p, plan req = .ok p →
        p.query.get "color".toList =
          some (.inRegExps (cs.map fun c => ⟨'^' :: (c ++ ['$']), ['i']⟩))) ∧
      ∀ canon v,
        inRegExpsHolds canon (cs.map fun c => ⟨'^' :: (c ++ ['$']), ['i']⟩) v = true ↔
          ∃ c ∈ cs, v.map canon = c.map canon := by
  have hc : colors req = .query (.arr (cs.map QVal.str)) := by
    rw [colors_eq, hcol]
    rfl
  have hlen : 0 < cs.length := List.length_pos.mpr hne
  have hw : ∀ q0, withColor req q0 =
      .ok (q0.set "color".toList (.inRegExps (cs.map fun c => ⟨'^' :: (c ++ ['$']), ['i']⟩))) := by
    intro q0
    unfold withColor
    rw [hc]
    simp [JSVal.truthy, JSVal.isArray, JSVal.items, hlen, colorRegExps_literal cs hmeta]
  have hquery : ∀ q, query req = .ok q →
      q.get "color".toList =
        some (.inRegExps (cs.map fun c => ⟨'^' :: (c ++ ['$']), ['i']⟩)) := by
    intro q hq
    obtain ⟨q0, q1, q2, -, h1, h2, h3⟩ := query_ok req q hq
    rw [hw] at h1
    rw [h3, withCategory_get_ne _ _ _ (by decide), withSize_get_ne _ _ _ _ (by decide) h2,
      ← Except.ok.inj h1]
    exact Filter.get_set_eq _ _ _
  refine ⟨hw, hquery, ?_, ?_⟩
  · intro p hp
    exact hquery p.query (plan_ok req p hp).1
  · intro canon v
    constructor
    · intro h
      rw [inRegExpsHolds, List.any_eq_true] at h
      obtain ⟨r, hr, ht⟩ := h
      rw [List.mem_map] at hr
      obtain ⟨c, hcm, rfl⟩ := hr
      rw [test_anchored canon c v (hmeta c hcm)] at ht
      exact ⟨c, hcm, by simpa using ht⟩
    · rintro ⟨c, hcm, hv⟩
      rw [inRegExpsHolds, List.any_eq_true]
      refine ⟨_, List.mem_map.mpr ⟨c, hcm, rfl⟩, ?_⟩
      rw [test_anchored canon c v (hmeta c hcm)]
      simpa using hv

theorem color_clause_exact_match_witness :
    (reqRed.query.get "color".toList = .query (.arr (["Red".toList].map QVal.str)) ∧
        ["Red".toList] ≠ [] ∧ (∀ c ∈ ["Red".toList], ∀ ch ∈ c, isMetaChar ch = false)) ∧
      (plan reqRed = .ok planRed ∧
        planRed.query.get "color".toList = some (.inRegExps [⟨"^Red$".toList, ['i']⟩]) ∧
        ∀ canon v,
          inRegExpsHolds canon [⟨"^Red$".toList, ['i']⟩] v = true ↔
            ∃ c ∈ ["Red".toList], v.map canon = c.map canon) ∧
      inRegExpsHolds Char.toUpper [⟨"^Red$".toList, ['i']⟩] "red".toList = true ∧
      inRegExpsHolds Char.toUpper [⟨"^Red$".toList, ['i']⟩] "RED".toList = true ∧
      inRegExpsHolds Char.toUpper [⟨"^Red$".toList, ['i']⟩] "Red".toList = true ∧
      inRegExpsHolds Char.toUpper [⟨"^Red$".toList, ['i']⟩] "Red/Black".toList = false :=
  ⟨⟨rfl, by decide, by decide⟩,
    ⟨rfl,
      (color_clause_exact_match reqRed ["Red".toList] rfl (by decide) (by decide)).2.2.1
        planRed rfl,
      (color_clause_exact_match reqRed ["Red".toList] rfl (by decide) (by decide)).2.2.2⟩,
    by decide, by decide, by decide, by decide⟩

/-! ### The endpoints -/

/-- C9: `getProduct` forwards the error `errorHandler("No such product exist", 404)` exactly
when the store has no product with the requested slug and `isActive` true; in every other
case it answers 200 with `{ success: true, data: p }` for a stored product `p` that has the
slug and is active. -/
theorem getProduct_notFound_iff (db : Store) (req : Req) :
    (getProduct db req = .next (.errorHandler "No such product exist".toList 404) ↔
        ¬∃ p ∈ db.products, p.slug = req.slug ∧ p.isActive = true) ∧
      (getProduct db req = .next (.errorHandler "No such product exist".toList 404) ∨
        ∃ p ∈ db.products, p.slug = req.slug ∧ p.isActive = true ∧
          getProduct db req = .json 200 ⟨true, p⟩) := by
  unfold getProduct
  cases hfind : db.products.find? fun p => p.slug == req.slug && p.isActive == true with
  | none =>
    rw [List.find?_eq_none] at hfind
    refine ⟨⟨fun _ => ?_, fun _ => rfl⟩, Or.inl rfl⟩
    rintro ⟨p, hp, hs, ha⟩
    exact hfind p hp (by simp [hs, ha])
  | some p =>
    have hmem : p ∈ db.products := List.mem_of_find?_eq_some hfind
    have hp := List.find?_some hfind
    simp only [Bool.and_eq_true, beq_iff_eq] at hp
    refine ⟨⟨fun h => ?_, fun h => absurd ⟨p, hmem, hp.1, hp.2⟩ h⟩, Or.inr ⟨p, hmem, hp.1, hp.2, rfl⟩⟩
    cases h

/-- The body of a `getProducts` answer: status 200, and facet lists read from the store
alone. -/
theorem getProducts_json (E : Engine) (db : Store) (req : Req) (status : Nat)
    (body : ProductsBody) (h : getProducts E db req = .json status body) :
    status = 200 ∧ body.colorOptions = E.distinct "color".toList db.products ∧
      body.brandOptions = db.brands.map (fun b => b.name) ∧
      body.categoryOptions = db.categories.map (fun c => c.name) := by
  unfold getProducts at h
  split at h
  · cases h
  · cases h
    exact ⟨rfl, rfl, rfl, rfl⟩

/-- C10: two `getProducts` answers over the same store carry the same `colorOptions`,
`brandOptions` and `categoryOptions`, whatever the query parameters of the two requests. -/
theorem facets_independent_of_request (E : Engine) (db : Store) (req1 req2 : Req)
    (status1 status2 : Nat) (body1 body2 : ProductsBody)
    (h1 : getProducts E db req1 = .json status1 body1)
    (h2 : getProducts E db req2 = .json status2 body2) :
    body1.colorOptions = body2.colorOptions ∧ body1.brandOptions = body2.brandOptions ∧
      body1.categoryOptions = body2.categoryOptions := by
  obtain ⟨-, hc1, hb1, hk1⟩ := getProducts_json E db req1 status1 body1 h1
  obtain ⟨-, hc2, hb2, hk2⟩ := getProducts_json E db req2 status2 body2 h2
  exact ⟨hc1.trans hc2.symm, hb1.trans hb2.symm, hk1.trans hk2.symm⟩

theorem facets_independent_of_request_witness :
    getProducts sampleEngine sampleStore (mkReq []) =
        .json 200
          { success := true, count := 2,
            products :=
              [sampleProduct "trail-boot" "acme" "Red" true,
                sampleProduct "city-boot" "zenith" "Black" true],
            colorOptions := ["Black".toList, "Red".toList],
            brandOptions := ["acme".toList, "zenith".toList],
            categoryOptions := ["boots".toList] } ∧
      getProducts sampleEngine sampleStore reqAcme =
        .json 200
          { success := true, count := 1,
            products := [sampleProduct "trail-boot" "acme" "Red" true],
            colorOptions := ["Black".toList, "Red".toList],
            brandOptions := ["acme".toList, "zenith".toList],
            categoryOptions := ["boots".toList] } ∧
      (["Black".toList, "Red".toList] = ["Black".toList, "Red".toList] ∧
        ["acme".toList, "zenith".toList] = ["acme".toList, "zenith".toList] ∧
        ["boots".toList] = ["boots".toList]) :=
  ⟨rfl, rfl,
    facets_independent_of_request sampleEngine sampleStore (mkReq []) reqAcme 200 200 _ _ rfl
      rfl⟩

/-- C16: `getFeaturedProducts` answers 200 with the first twelve featured products of the
store: at most 12 products, each with `isFeatured` true, forming a prefix of the featured
products in stored order. -/
theorem featured_first_twelve (db : Store) :
    ∃ body, getFeaturedProducts db = .json 200 body ∧ body.success = true ∧
      body.products.length ≤ 12 ∧ (∀ p ∈ body.products, p.isFeatured = true) ∧
      body.products <+: db.products.filter (fun p => p.isFeatured == true) ∧
      body.products = (db.products.filter fun p => p.isFeatured == true).take 12 ∧
      List.Sublist body.products db.products := by
  refine ⟨_, rfl, rfl, ?_, ?_, ?_, rfl, ?_⟩
  · exact List.length_take_le _ _
  · intro p hp
    have hmem := List.mem_of_mem_take hp
    rw [List.mem_filter] at hmem
    simpa using hmem.2
  · exact List.take_prefix _ _
  · exact (List.take_sublist _ _).trans (List.filter_sublist _)

/-- C18: for a `sortBy.value` string the sort field handed to storage is never the empty
string; when the text before the first underscore is empty the field stays `createdAt`, and
the order is still read from the token after that underscore. -/
theorem sort_field_never_empty (req : Req) (s : JSString) (p : Plan)
    (hv : (req.query.get "sortBy".toList).get "value".toList = .query (.str s))
    (h : plan req = .ok p) :
    p.sortField ≠ [] ∧
      (beforeFirst '_' s = [] →
        p.sortField = "createdAt".toList ∧
          (p.sortOrder = -1 ↔
            toLowerCase (beforeFirst '_' (afterFirst '_' s)) = "desc".toList)) := by
  obtain ⟨hf, ho⟩ := plan_sort_of_string req s p hv h
  constructor
  · rw [hf]
    by_cases hb : beforeFirst '_' s = []
    · rw [if_pos hb]
      decide
    · rw [if_neg hb]
      exact hb
  · intro hb
    rw [hf, if_pos hb, ho]
    refine ⟨rfl, ?_⟩
    by_cases hd : toLowerCase (beforeFirst '_' (afterFirst '_' s)) = "desc".toList
    · simp [hd]
    · simp only [if_neg hd, hd, iff_false]
      decide

theorem sort_field_never_empty_witness :
    ((reqSort "_desc").query.get "sortBy".toList).get "value".toList =
        .query (qstr "_desc") ∧
      plan (reqSort "_desc") = .ok (planSort "createdAt" (-1)) ∧
      (planSort "createdAt" (-1)).sortField ≠ [] ∧
      (planSort "createdAt" (-1)).sortField = "createdAt".toList ∧
      (planSort "createdAt" (-1)).sortOrder = -1 :=
  ⟨rfl, rfl,
    (sort_field_never_empty (reqSort "_desc") "_desc".toList (planSort "createdAt" (-1)) rfl
      rfl).1,
    ((sort_field_never_empty (reqSort "_desc") "_desc".toList (planSort "createdAt" (-1)) rfl
      rfl).2 rfl).1,
    ((sort_field_never_empty (reqSort "_desc") "_desc".toList (planSort "createdAt" (-1)) rfl
      rfl).2 rfl).2.mpr (by decide)⟩

/-! ### The name clause -/

theorem search_eq (req : Req) :
    search req =
      if (req.query.get "search".toList).truthy then req.query.get "search".toList
      else .query (.str []) := by
  unfold search
  rw [param_truthy]

/-- The name key of a filter that was built. -/
theorem query_get_name (req : Req) (q : Filter) (h : query req = .ok q) :
    q.get "name".toList = some (.regex (search req) ['i']) := by
  obtain ⟨q0, h0, hget⟩ :=
    query_get_init req q "name".toList h (by decide) (by decide) (by decide) (by decide)
  obtain ⟨gte, lte, -, -, hq0⟩ := queryInit_ok req q0 h0
  rw [hget, hq0]
  rfl

theorem occursIn_nil (v : JSString) : occursIn [] v = true := by
  cases v <;> simp [occursIn]

/-- C13: the filter always has a name clause `{ $regex: search, $options: "i" }`, where
`search` is the parameter when it is present and not empty and the empty string otherwise;
for literal text the clause holds of the names that contain it, ignoring case, and the
empty pattern holds of every name. -/
theorem name_clause_always (req : Req) (p : Plan) (h : plan req = .ok p) :
    p.query.get "name".toList = some (.regex (search req) ['i']) ∧
      ((req.query.get "search".toList).truthy = true →
        search req = req.query.get "search".toList) ∧
      (req.query.get "search".toList = .undefined ∨
          req.query.get "search".toList = .query (.str []) →
        search req = .query (.str []) ∧
          ∀ canon v, regexClauseHolds canon (.regex (search req) ['i']) v = some true) ∧
      ∀ s : JSString, search req = .query (.str s) → (∀ c ∈ s, isMetaChar c = false) →
        ∀ canon v,
          regexClauseHolds canon (.regex (search req) ['i']) v =
            some (occursIn (s.map canon) (v.map canon)) := by
  obtain ⟨hq, -, -, -⟩ := plan_ok req p h
  refine ⟨query_get_name req p.query hq, ?_, ?_, ?_⟩
  · intro ht
    rw [search_eq, if_pos ht]
  · intro hab
    have hf : (req.query.get "search".toList).truthy = false := (get_falsy_iff _ _).mpr hab
    have hs : search req = .query (.str []) := by
      rw [search_eq, hf]
      rfl
    refine ⟨hs, ?_⟩
    intro canon v
    rw [hs]
    have := test_literal canon [] v (by simp)
    simpa [regexClauseHolds, occursIn_nil] using this
  · intro s hs hmeta canon v
    rw [hs]
    exact test_literal canon s v hmeta

theorem name_clause_always_witness :
    plan reqBoots = .ok planBoots ∧
      planBoots.query.get "name".toList = some (.regex (.query (.str [])) ['i']) ∧
      regexClauseHolds Char.toUpper (.regex (.query (.str [])) ['i']) "Trail Boot".toList =
        some true :=
  ⟨rfl, (name_clause_always reqBoots planBoots rfl).1,
    ((name_clause_always reqBoots planBoots rfl).2.2.1 (Or.inl rfl)).2 Char.toUpper
      "Trail Boot".toList⟩

/-! ### Pagination -/

theorem parseInt_str (s : JSString) : parseInt (.query (.str s)) = .ok (parseIntStr s) := by
  simp only [parseInt, JSVal.toStr, toStr_str]

set_option maxRecDepth 100000 in
/-- C12 (as stated, fails on the code): the limit handed to storage is `NaN` for
`limit=abc`, `0` for `limit=0` and `-5` for `limit=-5`; and a skip can be `+Infinity`. -/
theorem limit_not_validated :
    (∃ p, plan (reqLimit "abc") = .ok p ∧ p.limit = .nan) ∧
      (∃ p, plan (reqLimit "0") = .ok p ∧ p.limit = .fin 0 0) ∧
      (∃ p, plan (reqLimit "-5") = .ok p ∧ p.limit = .fin (-5) 0) ∧
      (∃ p, plan reqHugePage = .ok p ∧ p.limit = .fin 2 0 ∧ p.skip = .posInf) :=
  ⟨⟨_, rfl, rfl⟩, ⟨_, rfl, rfl⟩, ⟨_, rfl, rfl⟩, ⟨_, rfl, rfl, rfl⟩⟩

/-- C12 (amended): the limit handed to storage is 12 when the parameter is absent or empty
and otherwise whatever `parseInt` gives for it, with no validation; whenever that limit is a
positive integer and `page` is absent, falsy or parses to an integer, the skip is a
non-negative integer, or `+Infinity` when the product is out of range. -/
theorem pagination_of_parsed_values (req : Req) (p : Plan) (h : plan req = .ok p) :
    ((req.query.get "limit".toList).truthy = false → p.limit = .fin 12 0) ∧
      ((req.query.get "limit".toList).truthy = true →
        parseInt (req.query.get "limit".toList) = .ok p.limit) ∧
      ∀ l : Int, p.limit = .fin l 0 → 0 < l →
        ((req.query.get "page".toList).truthy = false ∨
          ∃ n : Int, parseInt (req.query.get "page".toList) = .ok (.fin n 0)) →
        p.skip = .posInf ∨ ∃ k : Int, 0 ≤ k ∧ p.skip = .fin k 0 := by
  obtain ⟨-, -, hlim, -⟩ := plan_ok req p h
  rw [limit_eq] at hlim
  refine ⟨?_, ?_, ?_⟩
  · intro hf
    rw [hf] at hlim
    exact (Except.ok.inj hlim).symm
  · intro ht
    rw [if_pos ht] at hlim
    exact hlim
  · intro l hl hpos hpage
    obtain ⟨h0, hn⟩ := plan_skip_cases req p l h hl
    by_cases ht : (req.query.get "page".toList).truthy = true
    · rcases hpage with hf | ⟨n, hparse⟩
      · rw [ht] at hf
        cases hf
      · rw [hn n ht hparse, sub_one]
        rcases max_zero_ofInt (n - 1) with hinf | ⟨k, hk, hfin⟩
        · left
          rw [hinf]
          simp [JSNum.mul, JSNum.sign, Int.sign_eq_one_of_pos hpos]
        · rw [hfin, mul_int]
          exact ofInt_nonneg _ (Int.mul_nonneg hk (Int.le_of_lt hpos))
    · have hf : (req.query.get "page".toList).truthy = false := by simpa using ht
      exact Or.inr ⟨0, le_refl 0, h0 hf⟩

theorem pagination_of_parsed_values_witness :
    plan reqPage3 = .ok planPage3 ∧ planPage3.limit = .fin 12 0 ∧
      (planPage3.skip = .posInf ∨ ∃ k : Int, 0 ≤ k ∧ planPage3.skip = .fin k 0) :=
  ⟨rfl, rfl,
    (pagination_of_parsed_values reqPage3 planPage3 rfl).2.2 12 rfl (by decide)
      (Or.inr ⟨3, rfl⟩)⟩

/-! ### Decimal strings -/

theorem digitVal_digitChar (m : Nat) (h : m < 10) : digitVal 10 (Nat.digitChar m) = some m := by
  interval_cases m <;> decide

theorem digitChar_plain (m : Nat) (h : m < 10) :
    isWhiteSpace (Nat.digitChar m) = false ∧ Nat.digitChar m ≠ '-' ∧ Nat.digitChar m ≠ '+' ∧
      Nat.digitChar m ≠ 'x' ∧ Nat.digitChar m ≠ 'X' := by
  interval_cases m <;> decide

theorem digitsValue_append (ms : List Nat) (d : Nat) :
    digitsValue 10 (ms ++ [d]) = digitsValue 10 ms * 10 + d := by
  simp [digitsValue, List.foldl_append]

theorem toDigitsCore_spec (fuel : Nat) : ∀ (k : Nat) (ds : List Char), k < fuel →
    ∃ ms : List Nat, ms ≠ [] ∧ (∀ m ∈ ms, m < 10) ∧
      Nat.toDigitsCore 10 fuel k ds = ms.map Nat.digitChar ++ ds ∧ digitsValue 10 ms = k := by
  induction fuel with
  | zero => intro k ds h; omega
  | succ fuel ih =>
    intro k ds h
    simp only [Nat.toDigitsCore]
    by_cases hk : k / 10 = 0
    · rw [if_pos hk]
      refine ⟨[k % 10], by simp, ?_, rfl, ?_⟩
      · intro m hm
        simp at hm
        omega
      · simp [digitsValue]
        omega
    · rw [if_neg hk]
      obtain ⟨ms, hne, hlt, heq, hv⟩ := ih (k / 10) (Nat.digitChar (k % 10) :: ds) (by omega)
      refine ⟨ms ++ [k % 10], by simp, ?_, ?_, ?_⟩
      · intro m hm
        rw [List.mem_append] at hm
        rcases hm with hm | hm
        · exact hlt m hm
        · simp at hm
          omega
      · rw [heq]
        simp
      · rw [digitsValue_append, hv]
        omega

theorem takeDigits_map_digitChar (ms : List Nat) (h : ∀ m ∈ ms, m < 10) :
    takeDigits 10 (ms.map Nat.digitChar) = ms := by
  induction ms with
  | nil => rfl
  | cons m rest ih =>
    simp only [List.map_cons, takeDigits, digitVal_digitChar m (h m (List.mem_cons_self _ _))]
    rw [ih fun x hx => h x (List.mem_cons_of_mem _ hx)]

theorem not_hex_prefix (ms : List Nat) (hlt : ∀ m ∈ ms, m < 10) (c : Char) (r : JSString)
    (hx : c = 'x' ∨ c = 'X') : ms.map Nat.digitChar ≠ '0' :: c :: r := by
  intro heq
  cases ms with
  | nil => simp at heq
  | cons m0 rest =>
    cases rest with
    | nil => simp at heq
    | cons m1 rest2 =>
      have h1 := digitChar_plain m1 (hlt m1 (by simp))
      simp only [List.map_cons, List.cons.injEq] at heq
      rcases hx with hx | hx
      · rw [hx] at heq
        exact absurd heq.2.1 h1.2.2.2.1
      · rw [hx] at heq
        exact absurd heq.2.1 h1.2.2.2.2

theorem parseIntStr_digits (neg : Bool) (ms : List Nat) (hne : ms ≠ [])
    (hlt : ∀ m ∈ ms, m < 10) :
    parseIntStr ((if neg then ['-'] else []) ++ ms.map Nat.digitChar) =
      JSNum.ofInt (signed neg (digitsValue 10 ms)) := by
  cases ms with
  | nil => exact absurd rfl hne
  | cons m0 rest =>
    obtain ⟨hw, hminus, hplus, -, -⟩ := digitChar_plain m0 (hlt m0 (List.mem_cons_self _ _))
    have h1 :
        ((if neg then ['-'] else []) ++ (m0 :: rest).map Nat.digitChar).dropWhile isWhiteSpace =
          (if neg then ['-'] else []) ++ (m0 :: rest).map Nat.digitChar := by
      cases neg
      · simp [List.dropWhile, hw]
      · have hm : isWhiteSpace '-' = false := by decide
        simp [List.dropWhile, hm]
    have h2 : splitSign ((if neg then ['-'] else []) ++ (m0 :: rest).map Nat.digitChar)
        = (neg, (m0 :: rest).map Nat.digitChar) := by
      cases neg
      · simp only [Bool.false_eq_true, if_false, List.nil_append, List.map_cons]
        unfold splitSign
        split
        · rename_i heq
          exact absurd (List.cons.inj heq).1 hminus
        · rename_i heq
          exact absurd (List.cons.inj heq).1 hplus
        · rfl
      · rfl
    have h4 := takeDigits_map_digitChar (m0 :: rest) hlt
    have hx := not_hex_prefix (m0 :: rest) hlt
    unfold parseIntStr
    rw [h1, h2]
    simp only []
    split
    · rename_i heq
      split at heq
      · rename_i heq2
        exact absurd heq2 (hx _ _ (Or.inl rfl))
      · rename_i heq2
        exact absurd heq2 (hx _ _ (Or.inr rfl))
      · simp only [h4] at heq
        cases heq
    · split
      · rename_i heq2
        exact absurd heq2 (hx _ _ (Or.inl rfl))
      · rename_i heq2
        exact absurd heq2 (hx _ _ (Or.inr rfl))
      · simp only [h4]

theorem parseIntStr_decimalString (n : Int) : parseIntStr (decimalString n) = JSNum.ofInt n := by
  obtain ⟨ms, hne, hlt, heq, hv⟩ := toDigitsCore_spec (n.natAbs + 1) n.natAbs [] (by omega)
  have hd : Nat.toDigits 10 n.natAbs = ms.map Nat.digitChar := by
    rw [Nat.toDigits, heq, List.append_nil]
  unfold decimalString
  rw [hd]
  have := parseIntStr_digits (decide (n < 0)) ms hne hlt
  simp only [decide_eq_true_eq] at this
  rw [this, hv]
  congr 1
  unfold signed
  by_cases hn : n < 0
  · simp only [hn, decide_True, if_true]
    omega
  · simp only [hn, decide_False, Bool.false_eq_true, if_false]
    omega

theorem decimalString_truthy (n : Int) : (JSVal.query (.str (decimalString n))).truthy = true := by
  obtain ⟨ms, hne, hlt, heq, hv⟩ := toDigitsCore_spec (n.natAbs + 1) n.natAbs [] (by omega)
  have hd : Nat.toDigits 10 n.natAbs = ms.map Nat.digitChar := by
    rw [Nat.toDigits, heq, List.append_nil]
  unfold decimalString
  rw [hd]
  cases ms with
  | nil => exact absurd rfl hne
  | cons m0 rest =>
    by_cases hn : n < 0
    · simp [hn, JSVal.truthy]
    · simp [hn, JSVal.truthy]

/-- C15 (as stated, fails on the code): the decimal string of `9007199254740993` gives the
limit `9007199254740992`, the nearest double-precision number; and an empty `limit`
parameter gives 12, not the integer parse of the empty string, which is `NaN`. -/
theorem limit_not_the_written_integer :
    (decimalString 9007199254740993 = "9007199254740993".toList ∧
        ∃ p, plan (reqLimit "9007199254740993") = .ok p ∧
          p.limit = .fin 9007199254740992 0) ∧
      (parseInt (.query (qstr "")) = .ok .nan ∧
        ∃ p, plan (reqLimit "") = .ok p ∧ p.limit = .fin 12 0) :=
  ⟨⟨by decide, _, rfl, by decide⟩, by decide, _, rfl, rfl⟩

/-- C15 (amended): the limit handed to storage is 12 when the `limit` parameter is absent or
the empty string, and the integer parse of the parameter otherwise, with no minimum or
maximum: for every integer `n` written as a decimal string it is the number nearest to `n`,
which is `n` itself whenever its magnitude is at most `2 ^ 53`. -/
theorem limit_default_or_parse (req : Req) (p : Plan) (h : plan req = .ok p) :
    (req.query.get "limit".toList = .undefined ∨
          req.query.get "limit".toList = .query (.str []) →
        p.limit = .fin 12 0) ∧
      ((req.query.get "limit".toList).truthy = true →
        parseInt (req.query.get "limit".toList) = .ok p.limit) ∧
      ∀ n : Int, req.query.get "limit".toList = .query (.str (decimalString n)) →
        p.limit = JSNum.ofInt n ∧ (n.natAbs ≤ 2 ^ 53 → p.limit = .fin n 0) := by
  obtain ⟨-, -, hlim, -⟩ := plan_ok req p h
  rw [limit_eq] at hlim
  refine ⟨?_, ?_, ?_⟩
  · intro hu
    rw [(get_falsy_iff _ _).mpr hu] at hlim
    exact (Except.ok.inj hlim).symm
  · intro ht
    rw [if_pos ht] at hlim
    exact hlim
  · intro n hn
    have hp : p.limit = JSNum.ofInt n := by
      rw [hn, if_pos (decimalString_truthy n), parseInt_str, parseIntStr_decimalString] at hlim
      exact (Except.ok.inj hlim).symm
    exact ⟨hp, fun hb => hp.trans (ofInt_of_le n hb)⟩

theorem limit_default_or_parse_witness :
    (plan (reqLimit "500") = .ok (planLimit (.fin 500 0)) ∧
        (planLimit (.fin 500 0)).limit = .fin 500 0) ∧
      (plan (reqLimit "-5") = .ok (planLimit (.fin (-5) 0)) ∧
        (planLimit (.fin (-5) 0)).limit = .fin (-5) 0) ∧
      (plan (mkReq []) = .ok (planLimit (.fin 12 0)) ∧
        (planLimit (.fin 12 0)).limit = .fin 12 0) ∧
      (plan (reqLimit "") = .ok (planLimit (.fin 12 0)) ∧
        (planLimit (.fin 12 0)).limit = .fin 12 0) ∧
      (plan (reqLimit "9007199254740993") = .ok (planLimit (.fin 9007199254740992 0)) ∧
        (planLimit (.fin 9007199254740992 0)).limit = JSNum.ofInt 9007199254740993) :=
  ⟨⟨rfl,
      ((limit_default_or_parse (reqLimit "500") (planLimit (.fin 500 0)) rfl).2.2 500 rfl).2
        (by decide)⟩,
    ⟨rfl,
      ((limit_default_or_parse (reqLimit "-5") (planLimit (.fin (-5) 0)) rfl).2.2 (-5)
        (congrArg (fun s => JSVal.query (.str s))
          (by decide : "-5".toList = decimalString (-5)))).2
        (by decide)⟩,
    ⟨rfl, (limit_default_or_parse (mkReq []) (planLimit (.fin 12 0)) rfl).1 (Or.inl rfl)⟩,
    ⟨rfl, (limit_default_or_parse (reqLimit "") (planLimit (.fin 12 0)) rfl).1 (Or.inr rfl)⟩,
    ⟨rfl,
      ((limit_default_or_parse (reqLimit "9007199254740993")
        (planLimit (.fin 9007199254740992 0)) rfl).2.2 9007199254740993
        (congrArg (fun s => JSVal.query (.str s))
          (by decide : "9007199254740993".toList = decimalString 9007199254740993))).1⟩⟩


/-! ### Count and page window -/

/-- The body of a `getProducts` answer for a plan: the count is taken over every stored
product that satisfies the filter, the products are the window of the sorted matches. -/
theorem getProducts_body (E : Engine) (db : Store) (req : Req) (status : Nat)
    (body : ProductsBody) (p : Plan) (h : getProducts E db req = .json status body)
    (hp : plan req = .ok p) :
    body.count = (db.products.filter (E.sat p.query)).length ∧
      body.products =
        E.window p.skip p.limit
          (E.sort p.sortField p.sortOrder (db.products.filter (E.sat p.query))) := by
  unfold getProducts at h
  rw [hp] at h
  cases h
  exact ⟨rfl, rfl⟩

/-- An answer of `getProducts` comes from a plan that was built. -/
theorem getProducts_plan (E : Engine) (db : Store) (req : Req) (status : Nat)
    (body : ProductsBody) (h : getProducts E db req = .json status body) :
    ∃ p, plan req = .ok p := by
  unfold getProducts at h
  split at h
  · cases h
  · rename_i p hp
    exact ⟨p, hp⟩

theorem listWindow_nat (s l : Nat) (xs : List Product) (hl : 0 < l) :
    listWindow (.fin s 0) (.fin l 0) xs = (xs.drop s).take l := by
  have h : (0 : Int) ≤ s ∧ (0 : Int) < l := ⟨Int.ofNat_nonneg s, by exact_mod_cast hl⟩
  simp [listWindow, h]

/-! ### The brand, colour and size clauses -/

theorem brand_eq (req : Req) :
    brand req =
      if (req.query.get "brand".toList).truthy then req.query.get "brand".toList
      else .query (.arr []) := by
  unfold brand
  rw [param_truthy]

theorem sizes_eq (req : Req) :
    sizes req =
      if (req.query.get "size".toList).truthy then req.query.get "size".toList
      else .query (.arr []) := by
  unfold sizes
  rw [param_truthy]

/-- The guard `v && Array.isArray(v) && v.length > 0` on a parameter with the default `[]`
holds exactly of a non-empty array, and then the guarded value is the parameter. -/
theorem guard_nonEmptyArray (v : JSVal) (k : JSString) :
    (((if (v.get k).truthy then v.get k else .query (.arr [])).truthy &&
        (if (v.get k).truthy then v.get k else .query (.arr [])).isArray &&
        decide ((if (v.get k).truthy then v.get k else JSVal.query (.arr [])).items.length > 0))
        = (v.get k).isNonEmptyArray) ∧
      ((v.get k).isNonEmptyArray = true →
        (if (v.get k).truthy then v.get k else JSVal.query (.arr [])) = v.get k) := by
  rcases get_cases v k with h | ⟨w, h⟩
  · rw [h]
    exact ⟨rfl, fun hf => by cases hf⟩
  · rw [h]
    cases w with
    | str s =>
      cases s with
      | nil => exact ⟨rfl, fun hf => by cases hf⟩
      | cons c cs => exact ⟨rfl, fun _ => rfl⟩
    | arr xs =>
      cases xs with
      | nil => exact ⟨rfl, fun _ => rfl⟩
      | cons x rest =>
        refine ⟨?_, fun _ => rfl⟩
        simp [JSVal.truthy, JSVal.isArray, JSVal.items, JSVal.isNonEmptyArray]
    | obj fs => exact ⟨rfl, fun _ => rfl⟩

theorem withBrand_eq (req : Req) (q : Filter) :
    withBrand req q =
      if (req.query.get "brand".toList).isNonEmptyArray then
        q.set "brand".toList (.inVals (req.query.get "brand".toList).items)
      else q := by
  obtain ⟨h1, h2⟩ := guard_nonEmptyArray req.query "brand".toList
  unfold withBrand
  rw [brand_eq, h1]
  by_cases hb : (req.query.get "brand".toList).isNonEmptyArray = true
  · rw [if_pos hb, if_pos hb, h2 hb, List.map_id']
  · rw [if_neg hb, if_neg hb]

theorem withSize_eq (req : Req) (q : Filter) :
    withSize req q =
      if (req.query.get "size".toList).isNonEmptyArray then
        match sizeNumbers (req.query.get "size".toList).items with
        | .error e => .error e
        | .ok ns => .ok (q.set "sizeQuantity.size".toList (.inNums ns))
      else .ok q := by
  obtain ⟨h1, h2⟩ := guard_nonEmptyArray req.query "size".toList
  unfold withSize
  rw [sizes_eq, h1]
  by_cases hb : (req.query.get "size".toList).isNonEmptyArray = true
  · rw [if_pos hb, if_pos hb, h2 hb]
  · rw [if_neg hb, if_neg hb]

theorem withColor_eq (req : Req) (q : Filter) :
    withColor req q =
      if (req.query.get "color".toList).isNonEmptyArray then
        match colorRegExps (req.query.get "color".toList).items with
        | .error e => .error e
        | .ok rs => .ok (q.set "color".toList (.inRegExps rs))
      else .ok q := by
  obtain ⟨h1, h2⟩ := guard_nonEmptyArray req.query "color".toList
  unfold withColor
  rw [colors_eq, h1]
  by_cases hb : (req.query.get "color".toList).isNonEmptyArray = true
  · rw [if_pos hb, if_pos hb, h2 hb]
  · rw [if_neg hb, if_neg hb]

/-- The numbers of the size clause are the conversions of the given sizes, one for one and
in the same order. -/
theorem sizeNumbers_ok (items : List QVal) :
    ∀ ns, sizeNumbers items = .ok ns →
      List.Forall₂ (fun s n => toNumber (.query s) = .ok n) items ns := by
  induction items with
  | nil =>
    intro ns h
    unfold sizeNumbers at h
    cases h
    exact List.Forall₂.nil
  | cons s rest ih =>
    intro ns h
    unfold sizeNumbers at h
    split at h
    · cases h
    · rename_i n hn
      split at h
      · cases h
      · rename_i ms hms
        cases h
        exact List.Forall₂.cons hn (ih ms hms)

theorem lookup_filter_ne (fields : List (JSString × QVal)) (key k : JSString) (h : k ≠ key) :
    (fields.filter fun kv => kv.1 != key).lookup k = fields.lookup k := by
  induction fields with
  | nil => rfl
  | cons kv rest ih =>
    obtain ⟨k0, v0⟩ := kv
    by_cases h0 : k0 = key
    · subst h0
      have hk : (k == k0) = false := by simpa using h
      simp [List.filter, List.lookup, hk, ih]
    · have hb : (k0 != key) = true := by simpa using h0
      by_cases hk : k = k0
      · subst hk
        simp [List.filter, List.lookup, hb]
      · have hk2 : (k == k0) = false := by simpa using hk
        simp [List.filter, List.lookup, hb, hk2, ih]

theorem lookup_filter_eq (fields : List (JSString × QVal)) (key : JSString) :
    (fields.filter fun kv => kv.1 != key).lookup key = none := by
  induction fields with
  | nil => rfl
  | cons kv rest ih =>
    obtain ⟨k0, v0⟩ := kv
    by_cases h0 : k0 = key
    · subst h0
      simp [List.filter, ih]
    · have hb : (k0 != key) = true := by simpa using h0
      have hk2 : (key == k0) = false := by simpa using Ne.symm h0
      simp [List.filter, List.lookup, hb, hk2, ih]

theorem without_get_ne (v : JSVal) (key k : JSString) (h : k ≠ key) :
    (v.without key).get k = v.get k := by
  cases v with
  | undefined => rfl
  | num n => rfl
  | query w =>
    cases w with
    | str s => rfl
    | arr xs => rfl
    | obj fs => simp only [JSVal.without, JSVal.get, lookup_filter_ne fs key k h]

theorem without_get_eq (v : JSVal) (key : JSString) :
    (v.without key).get key = .undefined := by
  cases v with
  | undefined => rfl
  | num n => rfl
  | query w =>
    cases w with
    | str s => rfl
    | arr xs => rfl
    | obj fs => simp only [JSVal.without, JSVal.get, lookup_filter_eq fs key]

theorem page_congr (a b : Req) (h : a.query.get "page".toList = b.query.get "page".toList) :
    page a = page b := by
  rw [page_eq, page_eq, h]

theorem limit_congr (a b : Req) (h : a.query.get "limit".toList = b.query.get "limit".toList) :
    limit a = limit b := by
  rw [limit_eq, limit_eq, h]

theorem search_congr (a b : Req)
    (h : a.query.get "search".toList = b.query.get "search".toList) : search a = search b := by
  rw [search_eq, search_eq, h]

theorem sortParam_congr (a b : Req)
    (h : a.query.get "sortBy".toList = b.query.get "sortBy".toList) :
    sortParam a = sortParam b := by
  rw [sortParam_eq, sortParam_eq, h]

theorem categoryOpt_congr (a b : Req)
    (h : a.query.get "category".toList = b.query.get "category".toList) :
    categoryOpt a = categoryOpt b := by
  rw [categoryOpt_eq, categoryOpt_eq, h]

theorem price_congr (a b : Req) (h : a.query.get "price".toList = b.query.get "price".toList) :
    priceGte a = priceGte b ∧ priceLte a = priceLte b := by
  have hmin : priceRangeMin a = priceRangeMin b := by
    unfold priceRangeMin
    rw [param_truthy, param_truthy, h]
  have hmax : priceRangeMax a = priceRangeMax b := by
    unfold priceRangeMax
    rw [param_truthy, param_truthy, h]
  unfold priceGte priceLte
  rw [hmin, hmax]
  exact ⟨rfl, rfl⟩

/-- The filter is a function of six parameters: two requests build the same filter, or throw
the same exception, when each of `search`, `price`, `brand`, `color`, `size` and `category`
is either the same in both or, for the three guarded by `Array.isArray`, a non-empty array
in neither. -/
theorem query_of_params (a b : Req)
    (hsearch : a.query.get "search".toList = b.query.get "search".toList)
    (hprice : a.query.get "price".toList = b.query.get "price".toList)
    (hcat : a.query.get "category".toList = b.query.get "category".toList)
    (hstep : ∀ k, k = "brand".toList ∨ k = "color".toList ∨ k = "size".toList →
      a.query.get k = b.query.get k ∨
        ((a.query.get k).isNonEmptyArray = false ∧ (b.query.get k).isNonEmptyArray = false)) :
    query a = query b := by
  obtain ⟨hgte, hlte⟩ := price_congr a b hprice
  have hinit : queryInit a = queryInit b := by
    unfold queryInit
    rw [search_congr a b hsearch, hgte, hlte]
  have hbrand : ∀ q, withBrand a q = withBrand b q := by
    intro q
    rw [withBrand_eq, withBrand_eq]
    rcases hstep "brand".toList (Or.inl rfl) with h | ⟨h1, h2⟩
    · rw [h]
    · rw [h1, h2]
      rfl
  have hcolor : ∀ q, withColor a q = withColor b q := by
    intro q
    rw [withColor_eq, withColor_eq]
    rcases hstep "color".toList (Or.inr (Or.inl rfl)) with h | ⟨h1, h2⟩
    · rw [h]
    · rw [h1, h2]
      rfl
  have hsize : ∀ q, withSize a q = withSize b q := by
    intro q
    rw [withSize_eq, withSize_eq]
    rcases hstep "size".toList (Or.inr (Or.inr rfl)) with h | ⟨h1, h2⟩
    · rw [h]
    · rw [h1, h2]
      rfl
  have hcategory : ∀ q, withCategory a q = withCategory b q := by
    intro q
    unfold withCategory
    rw [categoryOpt_congr a b hcat]
  unfold query
  rw [hinit]
  simp only [hbrand, hcolor, hsize, hcategory]

/-- The filter reads none of `page`, `limit` and `sortBy`: two requests that agree on every
other parameter build the same filter, or throw the same exception. -/
theorem query_congr (a b : Req)
    (h : ∀ k, k ≠ "page".toList → k ≠ "limit".toList → k ≠ "sortBy".toList →
      a.query.get k = b.query.get k) :
    query a = query b := by
  refine query_of_params a b (h _ (by decide) (by decide) (by decide))
    (h _ (by decide) (by decide) (by decide)) (h _ (by decide) (by decide) (by decide)) ?_
  intro k hk
  left
  rcases hk with e | e | e <;> subst e <;> exact h _ (by decide) (by decide) (by decide)

/-- A parameter that is not a non-empty array can be removed without changing what
`getProducts` hands to storage, for the three parameters guarded by `Array.isArray`. -/
theorem plan_without (req : Req) (key : JSString)
    (hkey : key = "brand".toList ∨ key = "color".toList ∨ key = "size".toList)
    (hno : (req.query.get key).isNonEmptyArray = false) :
    plan (req.without key) = plan req := by
  have hget : ∀ k, k ≠ key → (req.without key).query.get k = req.query.get k :=
    fun k hk => without_get_ne req.query key k hk
  have hund : (req.without key).query.get key = .undefined := without_get_eq req.query key
  have hne : ∀ k, k ≠ "brand".toList → k ≠ "color".toList → k ≠ "size".toList → k ≠ key := by
    intro k h1 h2 h3 hk
    rcases hkey with e | e | e
    · exact h1 (hk.trans e)
    · exact h2 (hk.trans e)
    · exact h3 (hk.trans e)
  have hpage := page_congr _ req (hget _ (hne _ (by decide) (by decide) (by decide)))
  have hlimit := limit_congr _ req (hget _ (hne _ (by decide) (by decide) (by decide)))
  have hsort := sortParam_congr _ req (hget _ (hne _ (by decide) (by decide) (by decide)))
  have hquery : query (req.without key) = query req := by
    refine query_of_params _ req (hget _ (hne _ (by decide) (by decide) (by decide)))
      (hget _ (hne _ (by decide) (by decide) (by decide)))
      (hget _ (hne _ (by decide) (by decide) (by decide))) ?_
    intro k _
    by_cases hk : k = key
    · subst hk
      right
      rw [hund]
      exact ⟨rfl, hno⟩
    · exact Or.inl (hget k hk)
  unfold plan
  rw [hquery, hsort, hpage, hlimit]

theorem isNonEmptyArray_iff (v : JSVal) :
    v.isNonEmptyArray = true ↔ ∃ x rest, v = .query (.arr (x :: rest)) := by
  constructor
  · intro h
    cases v with
    | undefined => cases h
    | num n => cases h
    | query w =>
      cases w with
      | str s => cases h
      | arr xs =>
        cases xs with
        | nil => cases h
        | cons x rest => exact ⟨x, rest, rfl⟩
      | obj fs => cases h
  · rintro ⟨x, rest, rfl⟩
    rfl

/-- The sample request `reqAcmePage2` is `reqAcme` with `page`, `limit` and `sortBy` added. -/
theorem reqAcmePage2_agrees (k : JSString) (h1 : k ≠ "page".toList) (h2 : k ≠ "limit".toList)
    (h3 : k ≠ "sortBy".toList) : reqAcmePage2.query.get k = reqAcme.query.get k := by
  have e : reqAcme.query =
      ((reqAcmePage2.query.without "page".toList).without "limit".toList).without
        "sortBy".toList := rfl
  rw [e, without_get_ne _ _ _ h3, without_get_ne _ _ _ h2, without_get_ne _ _ _ h1]

/-- C11: `count` is the number of stored products that satisfy the filter of the plan, and
the filter reads none of `page`, `limit` and `sortBy`: any other answer to a request that
agrees on every parameter except those three has the same count; over an engine whose sort
permutes its input and whose window drops `skip` items and keeps `limit`, the products
number at most `limit`, each is a stored product that satisfies the filter, and there are no
more of them than `count`. -/
theorem count_and_page_window (E : Engine) (db : Store) (req : Req) (status : Nat)
    (body : ProductsBody) (p : Plan) (h : getProducts E db req = .json status body)
    (hp : plan req = .ok p)
    (hsort : ∀ f o xs, List.Perm (E.sort f o xs) xs)
    (hwin : ∀ (s l : Nat) xs, 0 < l → E.window (.fin s 0) (.fin l 0) xs = (xs.drop s).take l) :
    body.count = (db.products.filter (E.sat p.query)).length ∧
      (∀ req2 status2 body2, getProducts E db req2 = .json status2 body2 →
        (∀ k, k ≠ "page".toList → k ≠ "limit".toList → k ≠ "sortBy".toList →
          req2.query.get k = req.query.get k) →
        body2.count = body.count) ∧
      (∀ req2 status2 body2 p2, getProducts E db req2 = .json status2 body2 →
        plan req2 = .ok p2 → p2.query = p.query → body2.count = body.count) ∧
      ∀ s l : Nat, p.skip = .fin s 0 → p.limit = .fin l 0 → 0 < l →
        body.products.length ≤ l ∧
          (∀ x ∈ body.products, E.sat p.query x = true ∧ x ∈ db.products) ∧
          body.products.length ≤ body.count := by
  obtain ⟨hc, hprod⟩ := getProducts_body E db req status body p h hp
  refine ⟨hc, ?_, ?_, ?_⟩
  · intro req2 status2 body2 h2 hagree
    obtain ⟨p2, hp2⟩ := getProducts_plan E db req2 status2 body2 h2
    have hq2 := (plan_ok req2 p2 hp2).1
    have hq := (plan_ok req p hp).1
    rw [query_congr req2 req hagree, hq] at hq2
    rw [(getProducts_body E db req2 status2 body2 p2 h2 hp2).1, ← Except.ok.inj hq2, hc]
  · intro req2 status2 body2 p2 h2 hp2 hq
    rw [(getProducts_body E db req2 status2 body2 p2 h2 hp2).1, hq, hc]
  · intro s l hs hl hpos
    rw [hs, hl, hwin s l _ hpos] at hprod
    rw [hprod, hc]
    refine ⟨List.length_take_le _ _, ?_, ?_⟩
    · intro x hx
      have h1 := List.mem_of_mem_drop (List.mem_of_mem_take hx)
      have h2 := (hsort _ _ _).mem_iff.mp h1
      rw [List.mem_filter] at h2
      exact ⟨h2.2, h2.1⟩
    · calc ((E.sort p.sortField p.sortOrder
              (db.products.filter (E.sat p.query))).drop s |>.take l).length
          ≤ ((E.sort p.sortField p.sortOrder
              (db.products.filter (E.sat p.query))).drop s).length := List.length_take_le' _ _
        _ ≤ (E.sort p.sortField p.sortOrder
              (db.products.filter (E.sat p.query))).length := by
            rw [List.length_drop]
            exact Nat.sub_le _ _
        _ = (db.products.filter (E.sat p.query)).length := (hsort _ _ _).length_eq

theorem count_and_page_window_witness :
    (getProducts windowEngine sampleStore reqPage2 =
        .json 200
          { success := true, count := 2,
            products := [sampleProduct "city-boot" "zenith" "Black" true],
            colorOptions := ["Black".toList, "Red".toList],
            brandOptions := ["acme".toList, "zenith".toList],
            categoryOptions := ["boots".toList] } ∧
        plan reqPage2 = .ok planPage2 ∧ planPage2.skip = .fin 1 0 ∧
        planPage2.limit = .fin 1 0) ∧
      ([sampleProduct "city-boot" "zenith" "Black" true].length ≤ 1 ∧
        (∀ x ∈ [sampleProduct "city-boot" "zenith" "Black" true],
          windowEngine.sat planPage2.query x = true ∧ x ∈ sampleStore.products) ∧
        [sampleProduct "city-boot" "zenith" "Black" true].length ≤ 2) ∧
      (getProducts windowEngine sampleStore reqAcme =
          .json 200 (acmeBody [sampleProduct "trail-boot" "acme" "Red" true]) ∧
        getProducts windowEngine sampleStore reqAcmePage2 = .json 200 (acmeBody []) ∧
        reqAcmePage2.query.get "page".toList = .query (qstr "2") ∧
        reqAcme.query.get "page".toList = .undefined) ∧
      (acmeBody []).count = (acmeBody [sampleProduct "trail-boot" "acme" "Red" true]).count :=
  ⟨⟨rfl, rfl, rfl, rfl⟩,
    (count_and_page_window windowEngine sampleStore reqPage2 200 _ planPage2 rfl rfl
      (fun _ _ xs => List.Perm.refl xs) (fun s l xs hl => listWindow_nat s l xs hl)).2.2.2 1 1
      rfl rfl (by decide),
    ⟨rfl, rfl, rfl, rfl⟩,
    (count_and_page_window windowEngine sampleStore reqAcme 200
      (acmeBody [sampleProduct "trail-boot" "acme" "Red" true]) planAcme rfl rfl
      (fun _ _ xs => List.Perm.refl xs) (fun s l xs hl => listWindow_nat s l xs hl)).2.1
      reqAcmePage2 200 (acmeBody []) rfl reqAcmePage2_agrees⟩

/-- C17: in a filter that was built, the brand, colour and size clauses are each present
exactly when the parameter is a non-empty array; the brand clause is `{ $in: brand }` on the
given items unchanged, the size clause holds their numeric conversions, one for one and in
order, the colour clause the compiled patterns; a string, an object or an empty array in
place of the array gives no clause, and storage is handed the same as if the parameter had
been left out. -/
theorem in_clauses_iff_nonEmptyArray (req : Req) (p : Plan) (h : plan req = .ok p) :
    (p.query.get "brand".toList =
        if (req.query.get "brand".toList).isNonEmptyArray then
          some (.inVals (req.query.get "brand".toList).items)
        else none) ∧
      ((req.query.get "color".toList).isNonEmptyArray = true →
        ∃ rs, colorRegExps (req.query.get "color".toList).items = .ok rs ∧
          p.query.get "color".toList = some (.inRegExps rs)) ∧
      ((req.query.get "color".toList).isNonEmptyArray = false →
        p.query.get "color".toList = none) ∧
      ((req.query.get "size".toList).isNonEmptyArray = true →
        ∃ ns, sizeNumbers (req.query.get "size".toList).items = .ok ns ∧
          List.Forall₂ (fun s n => toNumber (.query s) = .ok n)
            (req.query.get "size".toList).items ns ∧
          p.query.get "sizeQuantity.size".toList = some (.inNums ns)) ∧
      ((req.query.get "size".toList).isNonEmptyArray = false →
        p.query.get "sizeQuantity.size".toList = none) ∧
      (∀ key, key = "brand".toList ∨ key = "color".toList ∨ key = "size".toList →
        (req.query.get key).isNonEmptyArray = false → plan (req.without key) = .ok p) ∧
      (∀ v : JSVal, v.isNonEmptyArray = true ↔ ∃ x rest, v = .query (.arr (x :: rest))) := by
  obtain ⟨hq, -, -, -⟩ := plan_ok req p h
  obtain ⟨q0, q1, q2, h0, h1, h2, h3⟩ := query_ok req p.query hq
  have hinit : ∀ k, k ≠ "name".toList → k ≠ "price".toList → k ≠ "isActive".toList →
      q0.get k = none := by
    intro k hk1 hk2 hk3
    obtain ⟨gte, lte, -, -, hq0⟩ := queryInit_ok req q0 h0
    rw [hq0]
    have e1 : (k == "name".toList) = false := by simpa using hk1
    have e2 : (k == "price".toList) = false := by simpa using hk2
    have e3 : (k == "isActive".toList) = false := by simpa using hk3
    simp only [Filter.get, List.lookup, e1, e2, e3]
  refine ⟨?_, ?_, ?_, ?_, ?_, ?_, isNonEmptyArray_iff⟩
  · rw [h3, withCategory_get_ne _ _ _ (by decide),
      withSize_get_ne _ _ _ _ (by decide) h2,
      withColor_get_ne _ _ _ _ (by decide) h1, withBrand_eq]
    by_cases hb : (req.query.get "brand".toList).isNonEmptyArray = true
    · rw [if_pos hb, if_pos hb]
      exact Filter.get_set_eq _ _ _
    · rw [if_neg hb, if_neg hb]
      exact hinit _ (by decide) (by decide) (by decide)
  · intro hc
    rw [withColor_eq, if_pos hc] at h1
    cases hrs : colorRegExps (req.query.get "color".toList).items with
    | error e =>
      rw [hrs] at h1
      cases h1
    | ok rs =>
      rw [hrs] at h1
      refine ⟨rs, rfl, ?_⟩
      rw [h3, withCategory_get_ne _ _ _ (by decide),
        withSize_get_ne _ _ _ _ (by decide) h2, ← Except.ok.inj h1]
      exact Filter.get_set_eq _ _ _
  · intro hc
    have hc2 : ¬(req.query.get "color".toList).isNonEmptyArray = true := by
      rw [hc]
      decide
    rw [withColor_eq, if_neg hc2] at h1
    rw [h3, withCategory_get_ne _ _ _ (by decide),
      withSize_get_ne _ _ _ _ (by decide) h2,
      ← Except.ok.inj h1, withBrand_get_ne _ _ _ (by decide)]
    exact hinit _ (by decide) (by decide) (by decide)
  · intro hs
    rw [withSize_eq, if_pos hs] at h2
    cases hns : sizeNumbers (req.query.get "size".toList).items with
    | error e =>
      rw [hns] at h2
      cases h2
    | ok ns =>
      rw [hns] at h2
      refine ⟨ns, rfl, sizeNumbers_ok _ ns hns, ?_⟩
      rw [h3, withCategory_get_ne _ _ _ (by decide), ← Except.ok.inj h2]
      exact Filter.get_set_eq _ _ _
  · intro hs
    have hs2 : ¬(req.query.get "size".toList).isNonEmptyArray = true := by
      rw [hs]
      decide
    rw [withSize_eq, if_neg hs2] at h2
    rw [h3, withCategory_get_ne _ _ _ (by decide), ← Except.ok.inj h2,
      withColor_get_ne _ _ _ _ (by decide) h1, withBrand_get_ne _ _ _ (by decide)]
    exact hinit _ (by decide) (by decide) (by decide)
  · intro key hkey hno
    rw [plan_without req key hkey hno, h]

theorem in_clauses_iff_nonEmptyArray_witness :
    (plan reqBrandSizes = .ok planBrandSizes ∧
        planBrandSizes.query.get "brand".toList = some (.inVals [qstr "acme"]) ∧
        (∃ ns, sizeNumbers [qstr "9", qstr "9.5"] = .ok ns ∧
          List.Forall₂ (fun s n => toNumber (.query s) = .ok n) [qstr "9", qstr "9.5"] ns ∧
          planBrandSizes.query.get "sizeQuantity.size".toList = some (.inNums ns)) ∧
        sizeNumbers [qstr "9", qstr "9.5"] = .ok [.fin 9 0, .fin 95 1] ∧
        planBrandSizes.query.get "color".toList = none) ∧
      (plan reqScalarColor = .ok (planSort "createdAt" 1) ∧
        (planSort "createdAt" 1).query.get "color".toList = none ∧
        plan (reqScalarColor.without "color".toList) = .ok (planSort "createdAt" 1)) :=
  ⟨⟨rfl, (in_clauses_iff_nonEmptyArray reqBrandSizes planBrandSizes rfl).1,
      (in_clauses_iff_nonEmptyArray reqBrandSizes planBrandSizes rfl).2.2.2.1 rfl, rfl,
      (in_clauses_iff_nonEmptyArray reqBrandSizes planBrandSizes rfl).2.2.1 rfl⟩,
    ⟨rfl, (in_clauses_iff_nonEmptyArray reqScalarColor (planSort "createdAt" 1) rfl).2.2.1 rfl,
      (in_clauses_iff_nonEmptyArray reqScalarColor (planSort "createdAt" 1) rfl).2.2.2.2.2.1
        "color".toList (Or.inr (Or.inl rfl)) rfl⟩⟩

/-! ### The size clause -/

theorem strictEq_nan (x : JSNum) : JSNum.strictEq .nan x = false := by
  cases x <;> rfl

/-- C14 (fails on the code): the conversion `sizes.map(Number)` throws on a size that is an
object with a key `toString`: for the request `?size[0][toString]=1` the construction of the
filter ends in a `TypeError`, which the endpoint hands to `next`.  Sizes that are strings do
not throw: they convert one for one and in order, `abc` to `NaN`, and `NaN` is `===` to no
number. -/
theorem size_conversion_throws :
    reqSizeToString.query.get "size".toList =
        .query (.arr [.obj [("toString".toList, .str "1".toList)]]) ∧
      toNumber (.query (.obj [("toString".toList, .str "1".toList)])) = .error notPrimitive ∧
      plan reqSizeToString = .error notPrimitive ∧
      getProducts sampleEngine sampleStore reqSizeToString = .next notPrimitive ∧
      sizeNumbers [qstr "9", qstr "abc", qstr "9.5"] = .ok [.fin 9 0, .nan, .fin 95 1] ∧
      plan reqSizeAbc = .ok planSizeAbc ∧
      planSizeAbc.query.get "sizeQuantity.size".toList = some (.inNums [.nan]) ∧
      ∀ stored, inNumsHolds [.nan] stored = false := by
  refine ⟨rfl, rfl, rfl, rfl, by decide, rfl, rfl, ?_⟩
  intro stored
  simp [inNumsHolds, strictEq_nan]

end Shoekart
